import Mathlib

/-!
The `box` growable array of `src/box.h` (macro `GEN_BOX_IMPL`).

A shallow embedding of the functions generated by `GEN_BOX_IMPL(T)` and
theorems about them.

Conventions of the embedding.

* `unsigned int` is a natural number below `2 ^ 32`; every C operation that can
  wrap is written with an explicit `% 2 ^ 32`.  `(int)u` is `to_int u`.
* A pointer that may be `NULL` is an `Option`.  The heap block behind
  `box->data` is the list of its slots, so the length of the list is the number
  of slots that were really allocated, which is not always `capacity`.
* What `calloc` and `realloc` answer, and what lies in storage the program has
  not initialised, is chosen by the environment: an `Env` is passed to every
  function that allocates or that may read such storage.  When `realloc` answers
  `NULL` the old block stays as it was, except for a request of 0 bytes on a
  non-null pointer, which has freed the block (`realloc_failed`).
* A function returns `none` when the C code writes outside the block, or reads
  or writes through `NULL`: the C standard gives such a call no meaning.
* Reading a slot outside a (non-null) block has no meaning in C either.  So that
  a call making such a read can be followed to its end (`remove_box_T` on a full
  block reads `data[len]`), the read is given the value `Env.junk` has for that
  slot; `remove_box_slots` lists the slots a call of `remove_box_T` touches.
-/

namespace BoxLib

/-- The enumeration `box_status_t`. -/
inductive box_status where
  | SUCCESS
  | ALLOC_ERROR
  | REALLOC_ERROR
  | NULL_PTR
  | BOX_NOT_EMPTY
  | BOX_EMPTY
  | OUT_OF_BOUNDS
  | DATA_NOT_EMPTY
  deriving DecidableEq, Repr

open box_status

/-- The structure `struct box_T`: `data` is `none` for `NULL`, else the slots of the block. -/
structure box_t (T : Type) where
  data : Option (List T)
  len : Nat
  capacity : Nat
  deriving DecidableEq, Repr

/-- Answers of the allocator during one call, and the contents of storage the
program has not written: `junk i` is what slot `i` of a block holds when the
program never initialised it (or when slot `i` lies just outside the block). -/
structure Env (T : Type) where
  calloc_ok : Bool
  realloc_ok : Bool
  junk : Nat → T

variable {T : Type}

/-- The conversion `(int)u` of an `unsigned int` (two's complement, 32 bits). -/
def to_int (u : Nat) : Int :=
  if u < 2 ^ 31 then (u : Int) else (u : Int) - 2 ^ 32

/-- How many low bits of `n` do not fit into the 24-bit significand of a
binary32: `0` below `2 ^ 24`, else the `k` with `2 ^ (23 + k) ≤ n < 2 ^ (24 + k)`.
The first argument bounds the recursion; `n` itself is always enough. -/
def drop_bits : Nat → Nat → Nat
  | 0, _ => 0
  | fuel + 1, n => if n < 2 ^ 24 then 0 else drop_bits fuel (n / 2) + 1

/-- Nearest binary32 value to the natural number `n`, ties to even: exact below
`2 ^ 24`, otherwise `n` rounded to a multiple of `2 ^ k`, `k = drop_bits n n`. -/
def f32_round (n : Nat) : Nat :=
  if n < 2 ^ 24 then n
  else
    let k := drop_bits n n
    let q := n / 2 ^ k
    let r := n % 2 ^ k
    if 2 ^ (k - 1) < r ∨ (r = 2 ^ (k - 1) ∧ q % 2 = 1) then (q + 1) * 2 ^ k else q * 2 ^ k

/-- The expression `(unsigned int)((float)capacity * 1.5f)` in IEEE 754 binary32
arithmetic, every operation rounded to nearest, ties to even.  `(float)capacity`
is `f32_round capacity`; the exact product is `3 * f / 2`, and rounding it to 24
significant bits is rounding `3 * f` (the product counted in halves) to 24
significant bits.  The conversion to `unsigned int` truncates; of a value that
does not fit (which C leaves undefined) it keeps the low 32 bits. -/
def grow_f32 (capacity : Nat) : Nat :=
  (f32_round (3 * f32_round capacity) / 2) % 2 ^ 32

/-- The initialiser of `new_capacity` in `push_box_T`. -/
def new_capacity (capacity : Nat) : Nat :=
  if capacity > 32 then grow_f32 capacity else (capacity * 2) % 2 ^ 32

/-- Reading `data[i]` from a non-null block.  Outside the block, where C gives the
read no meaning, the value is `junk i`. -/
def load (junk : Nat → T) (buf : List T) (i : Nat) : T :=
  buf.getD i (junk i)

/-- Writing `data[i] = v` into a non-null block; `none` outside the block. -/
def store (buf : List T) (i : Nat) (v : T) : Option (List T) :=
  if i < buf.length then some (buf.set i v) else none

/-- The call `calloc(n, sizeof(T))`: `none` is `NULL`. -/
def calloc [Zero T] (ok : Bool) (n : Nat) : Option (List T) :=
  if ok then some (List.replicate n 0) else none

/-- The pointer `realloc(ptr, n * sizeof(T))` returns: `none` is `NULL`.  The new
block has `n` slots, the old contents up to `n`, and uninitialised slots after
them.  What becomes of the old block when `NULL` is returned is `realloc_failed`. -/
def realloc (ok : Bool) (junk : Nat → T) (ptr : Option (List T)) (n : Nat) :
    Option (List T) :=
  if ok then
    let old := ptr.getD []
    some (old.take n ++ (List.range (n - old.length)).map (fun k => junk (old.length + k)))
  else none

/-- The block behind `ptr` once `realloc(ptr, n * sizeof(T))` has returned `NULL`.
A request that fails for want of memory leaves the block as it was.  A request for
0 bytes on a non-null pointer is answered with `NULL` after the block has been
freed (glibc does so): the pointer the caller still holds is not null and points
to no slot any more. -/
def realloc_failed (ptr : Option (List T)) (n : Nat) : Option (List T) :=
  match ptr with
  | none => none
  | some buf => if n = 0 then some [] else some buf

/-- The call `memcpy(&dst[off], src, n * sizeof(T))`.  Copying nothing does
nothing; otherwise both pointers must be non-null and the `n` slots written must
lie inside the destination block. -/
def memcpy (junk : Nat → T) (dst : Option (List T)) (off : Nat) (src : Option (List T))
    (n : Nat) : Option (Option (List T)) :=
  if n = 0 then some dst
  else
    match dst, src with
    | some d, some s =>
      if off + n ≤ d.length then
        some (some (d.take off ++ (List.range n).map (fun k => load junk s k) ++ d.drop (off + n)))
      else none
    | _, _ => none

/-- The function `create_box_T`: the argument is `*box`, `hdr_ok` says whether the
`calloc` of the header succeeds. -/
def create_box (hdr_ok : Bool) (box : Option (box_t T)) : box_status × Option (box_t T) :=
  match box with
  | some b => (BOX_NOT_EMPTY, some b)
  | none =>
    if hdr_ok then (SUCCESS, some { data := none, len := 0, capacity := 1 })
    else (ALLOC_ERROR, none)

/-- The function `create_box_T_from`.  When the second `calloc` fails the zeroed
header stays behind in `*box`. -/
def create_box_from [Zero T] (hdr_ok data_ok : Bool) (box : Option (box_t T)) (data : T) :
    box_status × Option (box_t T) :=
  match box with
  | some b => (BOX_NOT_EMPTY, some b)
  | none =>
    if hdr_ok then
      match (calloc data_ok 1 : Option (List T)) with
      | none => (ALLOC_ERROR, some { data := none, len := 0, capacity := 0 })
      | some _ => (SUCCESS, some { data := some [data], len := 1, capacity := 1 })
    else (ALLOC_ERROR, none)

/-- The function `push_box_T`. -/
def push_box [Zero T] (env : Env T) (box : Option (box_t T)) (data : T) :
    Option (box_status × Option (box_t T)) :=
  match box with
  | none => some (NULL_PTR, none)
  | some b =>
    match (match b.data with
           | some buf => some buf
           | none => calloc env.calloc_ok 1) with
    | none => some (ALLOC_ERROR, some b)
    | some buf =>
      if (b.len + 1) % 2 ^ 32 > b.capacity then
        match realloc env.realloc_ok env.junk (some buf) (new_capacity b.capacity) with
        | none =>
          some (REALLOC_ERROR,
            some { b with data := realloc_failed (some buf) (new_capacity b.capacity) })
        | some tmp =>
          match store tmp b.len data with
          | none => none
          | some tmp' =>
            some (SUCCESS, some { data := some tmp', len := (b.len + 1) % 2 ^ 32,
                                  capacity := new_capacity b.capacity })
      else
        match store buf b.len data with
        | none => none
        | some buf' =>
          some (SUCCESS, some { data := some buf', len := (b.len + 1) % 2 ^ 32,
                                capacity := b.capacity })

/-- The static function `reduce_box_T` (its callers pass a non-null box). -/
def reduce_box [Zero T] (env : Env T) (b : box_t T) : Option (box_status × box_t T) :=
  match b.data with
  | none => none
  | some buf =>
    match store buf ((b.len + 2 ^ 32 - 1) % 2 ^ 32) 0 with
    | none => none
    | some buf1 =>
      let len := (b.len + 2 ^ 32 - 1) % 2 ^ 32
      if len < b.capacity / 2 then
        match realloc env.realloc_ok env.junk (some buf1) (b.capacity / 2) with
        | none =>
          some (REALLOC_ERROR, { data := realloc_failed (some buf1) (b.capacity / 2), len := len,
                                 capacity := b.capacity / 2 })
        | some tmp => some (SUCCESS, { data := some tmp, len := len, capacity := b.capacity / 2 })
      else some (SUCCESS, { data := some buf1, len := len, capacity := b.capacity })

/-- The function `pop_box_T`: `item` is `none` for a null pointer, else the
value the caller's variable holds; the result gives the box and that variable
after the call. -/
def pop_box [Zero T] (env : Env T) (box : Option (box_t T)) (item : Option T) :
    Option (box_status × Option (box_t T) × Option T) :=
  match box, item with
  | none, _ => some (NULL_PTR, none, item)
  | some b, none => some (NULL_PTR, some b, none)
  | some b, some old =>
    if b.len = 0 then some (BOX_EMPTY, some b, some old)
    else
      match b.data with
      | none => none
      | some buf =>
        match reduce_box env b with
        | none => none
        | some (stat, b') => some (stat, some b', some (load env.junk buf (b.len - 1)))

/-- The loop `for (int i = ..; i < (int)box->len; i++) data[i] = data[i + 1];`
of `remove_box_T`, with the number of iterations still to run. -/
def shift_loop (junk : Nat → T) : Nat → Int → List T → Option (List T)
  | 0, _, buf => some buf
  | n + 1, i, buf =>
    if i < 0 then none
    else
      match store buf i.toNat (load junk buf (i.toNat + 1)) with
      | none => none
      | some buf' => shift_loop junk n (i + 1) buf'

/-- The function `remove_box_T`. -/
def remove_box [Zero T] (env : Env T) (box : Option (box_t T)) (index : Nat) :
    Option (box_status × Option (box_t T)) :=
  match box with
  | none => some (NULL_PTR, none)
  | some b =>
    if b.len = 0 then some (BOX_EMPTY, some b)
    else if index > b.len - 1 then some (OUT_OF_BOUNDS, some b)
    else
      match b.data with
      | none => none
      | some buf =>
        match shift_loop env.junk (to_int b.len - to_int index).toNat (to_int index) buf with
        | none => none
        | some buf' =>
          match reduce_box env { b with data := some buf' } with
          | none => none
          | some (stat, b') => some (stat, some b')

/-- The function `get_box_T`.  The box is passed by pointer to `const`; it is
returned as it was, next to the caller's variable `*item` after the call. -/
def get_box (env : Env T) (box : Option (box_t T)) (item : Option T) (index : Nat) :
    Option (box_status × Option (box_t T) × Option T) :=
  match box, item with
  | none, _ => some (NULL_PTR, none, item)
  | some b, none => some (NULL_PTR, some b, none)
  | some b, some old =>
    if b.len = 0 then some (BOX_EMPTY, some b, some old)
    else if index > b.len - 1 then some (OUT_OF_BOUNDS, some b, some old)
    else
      match b.data with
      | none => none
      | some buf => some (SUCCESS, some b, some (load env.junk buf index))

/-- The function `set_box_T`. -/
def set_box (box : Option (box_t T)) (data : T) (index : Nat) :
    Option (box_status × Option (box_t T)) :=
  match box with
  | none => some (NULL_PTR, none)
  | some b =>
    if b.len = 0 then some (BOX_EMPTY, some b)
    else if index > b.len - 1 then some (OUT_OF_BOUNDS, some b)
    else
      match b.data with
      | none => none
      | some buf =>
        match store buf index data with
        | none => none
        | some buf' => some (SUCCESS, some { b with data := some buf' })

/-- The function `get_box_T_data`: `data` is `*data`, the caller's destination
pointer, and the result gives the box (passed by pointer to `const`) and `*data`
after the call.  The result of `calloc` is not checked before `memcpy` writes
through it. -/
def get_box_data [Zero T] (env : Env T) (box : Option (box_t T)) (data : Option (List T)) :
    Option (box_status × Option (box_t T) × Option (List T)) :=
  match box with
  | none => some (NULL_PTR, none, data)
  | some b =>
    match data with
    | some d => some (DATA_NOT_EMPTY, some b, some d)
    | none =>
      match memcpy env.junk (calloc env.calloc_ok b.len) 0 b.data b.len with
      | none => none
      | some d => some (SUCCESS, some b, d)

/-- The function `get_box_T_len`: `len` is `none` for a null pointer, else the
value of the caller's variable (the pointer is not checked: writing through a
null `len` is `none`). -/
def get_box_len (box : Option (box_t T)) (len : Option Nat) :
    Option (box_status × Option (box_t T) × Option Nat) :=
  match box with
  | none => some (NULL_PTR, none, len)
  | some b =>
    if b.len = 0 then some (BOX_EMPTY, some b, len)
    else
      match len with
      | none => none
      | some _ => some (SUCCESS, some b, some b.len)

/-- The function `cat_box_T` called on two different boxes; the result gives
`*dest` and `*src` after the call (`src` points to `const` and is not written). -/
def cat_box (env : Env T) (dest src : Option (box_t T)) :
    Option (box_status × Option (box_t T) × Option (box_t T)) :=
  match dest, src with
  | none, _ => some (NULL_PTR, none, src)
  | some d, none => some (NULL_PTR, some d, none)
  | some d, some s =>
    match realloc env.realloc_ok env.junk d.data ((d.capacity + s.capacity) % 2 ^ 32) with
    | none =>
      some (REALLOC_ERROR,
        some { d with data := realloc_failed d.data ((d.capacity + s.capacity) % 2 ^ 32),
                      capacity := (d.capacity + s.capacity) % 2 ^ 32 }, some s)
    | some tmp =>
      match memcpy env.junk (some tmp) d.len s.data s.len with
      | some (some buf) =>
        some (SUCCESS, some { data := some buf, len := (d.len + s.len) % 2 ^ 32,
                              capacity := (d.capacity + s.capacity) % 2 ^ 32 }, some s)
      | _ => none

/-- The call `cat_box_T(box, box)`, where `dest` and `src` are the same box:
`src->capacity` is read before `dest->capacity` is assigned, `src->data` is the
block `realloc` returned, and `src->len` is read before `dest->len` is assigned. -/
def cat_box_self (env : Env T) (box : Option (box_t T)) :
    Option (box_status × Option (box_t T)) :=
  match box with
  | none => some (NULL_PTR, none)
  | some d =>
    match realloc env.realloc_ok env.junk d.data ((d.capacity + d.capacity) % 2 ^ 32) with
    | none =>
      some (REALLOC_ERROR,
        some { d with data := realloc_failed d.data ((d.capacity + d.capacity) % 2 ^ 32),
                      capacity := (d.capacity + d.capacity) % 2 ^ 32 })
    | some tmp =>
      match memcpy env.junk (some tmp) d.len (some tmp) d.len with
      | some (some buf) =>
        some (SUCCESS, some { data := some buf, len := (d.len + d.len) % 2 ^ 32,
                              capacity := (d.capacity + d.capacity) % 2 ^ 32 })
      | _ => none

/-! ## Vocabulary of the statements -/

/-- The fields of `b` are `unsigned int` values, and so is the number of slots
of its block (a block is only ever requested with an `unsigned int` count). -/
def Fits (b : box_t T) : Prop :=
  b.len < 2 ^ 32 ∧ b.capacity < 2 ^ 32 ∧ (b.data.getD []).length < 2 ^ 32

/-- The box `b` holds the element sequence `xs`: `xs` has `len` elements and they
are the first `len` slots of the block (`NULL` has no slots). -/
def Holds (b : box_t T) (xs : List T) : Prop :=
  b.len = xs.length ∧ (b.data.getD []).take b.len = xs

/-- The boxes a program can build: made by a successful `create_box_T` or
`create_box_T_from`, then changed by calls of `push`, `pop`, `remove`, `set` and
`cat` that return (with any status); the sums of `cat` do not wrap. -/
inductive Reachable [Zero T] : box_t T → Prop where
  | create (hdr_ok : Bool) (b : box_t T) :
      create_box hdr_ok none = (SUCCESS, some b) → Reachable b
  | create_from (hdr_ok data_ok : Bool) (v : T) (b : box_t T) :
      create_box_from hdr_ok data_ok none v = (SUCCESS, some b) → Reachable b
  | push (env : Env T) (b : box_t T) (v : T) (st : box_status) (b' : box_t T) :
      Reachable b → push_box env (some b) v = some (st, some b') → Reachable b'
  | pop (env : Env T) (b : box_t T) (item : Option T) (st : box_status) (b' : box_t T)
      (item' : Option T) :
      Reachable b → pop_box env (some b) item = some (st, some b', item') → Reachable b'
  | remove (env : Env T) (b : box_t T) (index : Nat) (st : box_status) (b' : box_t T) :
      Reachable b → remove_box env (some b) index = some (st, some b') → Reachable b'
  | set (b : box_t T) (v : T) (index : Nat) (st : box_status) (b' : box_t T) :
      Reachable b → set_box (some b) v index = some (st, some b') → Reachable b'
  | cat (env : Env T) (d s : box_t T) (st : box_status) (d' : box_t T) (s' : Option (box_t T)) :
      Reachable d → Reachable s →
      d.capacity + s.capacity < 2 ^ 32 → d.len + s.len < 2 ^ 32 →
      cat_box env (some d) (some s) = some (st, some d', s') → Reachable d'
  | cat_self (env : Env T) (d : box_t T) (st : box_status) (d' : box_t T) :
      Reachable d →
      d.capacity + d.capacity < 2 ^ 32 → d.len + d.len < 2 ^ 32 →
      cat_box_self env (some d) = some (st, some d') → Reachable d'

/-- Pushing the values of a list in order, call number `k` first; `none` as soon
as a call does not return `SUCCESS`. -/
def push_each [Zero T] (env : Nat → Env T) : Nat → Option (box_t T) → List T →
    Option (Option (box_t T))
  | _, box, [] => some box
  | k, box, v :: vs =>
    match push_box (env k) box v with
    | some (SUCCESS, box') => push_each env (k + 1) box' vs
    | _ => none

/-- What holds of a box while values are pushed onto a fresh box: its capacity is
the `k`-th one of the growth sequence started at 1 (which overflows after the
50th), `len ≤ capacity`, and the block has exactly `capacity` slots (while `data`
is still null the capacity is 1). -/
def Grown (b : box_t T) (k : Nat) : Prop :=
  k ≤ 50 ∧ b.capacity = new_capacity^[k] 1 ∧ b.len ≤ b.capacity ∧
    (match b.data with
     | none => b.capacity = 1
     | some buf => buf.length = b.capacity)

/-- The boxes a program can build by calls that all returned `SUCCESS`: made by
`create_box_T` or `create_box_T_from`, then changed by `push`, `pop`, `remove`
and `set`, and, when `with_cat` is true, by `cat` (of any source box, or onto
itself) whose sum of capacities does not wrap. -/
inductive Built [Zero T] (with_cat : Bool) : box_t T → Prop where
  | create (hdr_ok : Bool) (b : box_t T) :
      create_box hdr_ok none = (SUCCESS, some b) → Built with_cat b
  | create_from (hdr_ok data_ok : Bool) (v : T) (b : box_t T) :
      create_box_from hdr_ok data_ok none v = (SUCCESS, some b) → Built with_cat b
  | push (env : Env T) (b : box_t T) (v : T) (b' : box_t T) :
      Built with_cat b → push_box env (some b) v = some (SUCCESS, some b') → Built with_cat b'
  | pop (env : Env T) (b : box_t T) (item : Option T) (b' : box_t T) (item' : Option T) :
      Built with_cat b → pop_box env (some b) item = some (SUCCESS, some b', item') →
      Built with_cat b'
  | remove (env : Env T) (b : box_t T) (index : Nat) (b' : box_t T) :
      Built with_cat b → remove_box env (some b) index = some (SUCCESS, some b') →
      Built with_cat b'
  | set (b : box_t T) (v : T) (index : Nat) (b' : box_t T) :
      Built with_cat b → set_box (some b) v index = some (SUCCESS, some b') → Built with_cat b'
  | cat (env : Env T) (d s : box_t T) (d' : box_t T) (s' : Option (box_t T)) :
      with_cat = true → Built with_cat d → d.capacity + s.capacity < 2 ^ 32 →
      cat_box env (some d) (some s) = some (SUCCESS, some d', s') → Built with_cat d'
  | cat_self (env : Env T) (d : box_t T) (d' : box_t T) :
      with_cat = true → Built with_cat d → d.capacity + d.capacity < 2 ^ 32 →
      cat_box_self env (some d) = some (SUCCESS, some d') → Built with_cat d'

/-- The three calls that change the number of elements. -/
inductive call_kind where
  | push
  | pop
  | remove
  deriving DecidableEq, Repr

/-- One call of `push`, `pop` or `remove`, with the answers of the allocator
during the call. -/
inductive Call (T : Type) where
  | push (env : Env T) (v : T)
  | pop (env : Env T)
  | remove (env : Env T) (index : Nat)

/-- Which function a call calls. -/
def Call.kind : Call T → call_kind
  | .push _ _ => call_kind.push
  | .pop _ => call_kind.pop
  | .remove _ _ => call_kind.remove

/-- One call on a non-null box: the status returned and the box afterwards.
`pop` is given a non-null item pointer. -/
def call_box [Zero T] (c : Call T) (b : box_t T) : Option (box_status × Option (box_t T)) :=
  match c with
  | .push env v => push_box env (some b) v
  | .pop env =>
    match pop_box env (some b) (some 0) with
    | none => none
    | some (st, b', _) => some (st, b')
  | .remove env index => remove_box env (some b) index

/-- The calls of a list made in order on a box: the box at the end and, for each
call, its kind and the status it returned; `none` when a call has no defined
result. -/
def run_calls [Zero T] : box_t T → List (Call T) → Option (box_t T × List (call_kind × box_status))
  | b, [] => some (b, [])
  | b, c :: cs =>
    match call_box c b with
    | some (st, some b') =>
      match run_calls b' cs with
      | none => none
      | some (b'', log) => some (b'', (c.kind, st) :: log)
    | _ => none

/-- How many pushes of a log returned `SUCCESS`. -/
def pushes_ok (log : List (call_kind × box_status)) : Nat :=
  log.countP (fun e => e.1 = call_kind.push ∧ e.2 = SUCCESS)

/-- How many pops and removes a log has. -/
def removals (log : List (call_kind × box_status)) : Nat :=
  log.countP (fun e => e.1 ≠ call_kind.push)

/-- How many pops and removes of a log returned `SUCCESS`. -/
def removals_ok (log : List (call_kind × box_status)) : Nat :=
  log.countP (fun e => e.1 ≠ call_kind.push ∧ e.2 = SUCCESS)

/-- How many pops and removes of a log returned `SUCCESS` or `REALLOC_ERROR`. -/
def removals_done (log : List (call_kind × box_status)) : Nat :=
  log.countP (fun e => e.1 ≠ call_kind.push ∧ (e.2 = SUCCESS ∨ e.2 = REALLOC_ERROR))

/-- The slots the loop of `remove_box_T` touches in the iterations still to run:
iteration `i` reads `data[i + 1]` and writes `data[i]`. -/
def shift_loop_slots : Nat → Int → List Int
  | 0, _ => []
  | n + 1, i => (i + 1) :: i :: shift_loop_slots n (i + 1)

/-- The slots of `box->data` that a call `remove_box_T(box, index)` reads or
writes: those of the loop, then the slot `len - 1` that `reduce_box_T` zeroes. -/
def remove_box_slots (b : box_t T) (index : Nat) : List Int :=
  if b.len = 0 then []
  else if index > b.len - 1 then []
  else
    shift_loop_slots (to_int b.len - to_int index).toNat (to_int index) ++
      [(((b.len + 2 ^ 32 - 1) % 2 ^ 32 : Nat) : Int)]

/-! ## Basic facts about the memory operations -/

/-- A write that succeeds is inside the block and is `List.set`. -/
theorem store_eq_some {buf buf' : List T} {i : Nat} {v : T} (h : store buf i v = some buf') :
    i < buf.length ∧ buf' = buf.set i v := by
  unfold store at h
  split at h
  · exact ⟨by assumption, by simpa using h.symm⟩
  · simp at h

/-- A `realloc` that succeeds gives a block of exactly `n` slots. -/
theorem realloc_eq_some {ok : Bool} {junk : Nat → T} {ptr : Option (List T)} {n : Nat}
    {tmp : List T} (h : realloc ok junk ptr n = some tmp) :
    ok = true ∧ tmp.length = n ∧
      tmp = (ptr.getD []).take n ++
        (List.range (n - (ptr.getD []).length)).map (fun k => junk ((ptr.getD []).length + k)) := by
  unfold realloc at h
  split at h
  · simp only [Option.some.injEq] at h
    refine ⟨by assumption, ?_, h.symm⟩
    subst h
    simp only [List.length_append, List.length_take, List.length_map, List.length_range]
    omega
  · simp at h

/-- `push` keeps `len ≤ capacity`, whatever it returns. -/
theorem push_box_inv [Zero T] {env : Env T} {b b' : box_t T} {v : T} {st : box_status}
    (h : push_box env (some b) v = some (st, some b')) (hb : b.len ≤ b.capacity) :
    b'.len ≤ b'.capacity := by
  unfold push_box at h
  simp only at h
  split at h
  · simp only [Option.some.injEq, Prod.mk.injEq] at h
    obtain ⟨-, rfl⟩ := h
    exact hb
  · split at h
    · split at h
      · simp only [Option.some.injEq, Prod.mk.injEq] at h
        obtain ⟨-, rfl⟩ := h
        exact hb
      · split at h
        · simp at h
        · rename_i tmp htmp _ tmp' hst
          simp only [Option.some.injEq, Prod.mk.injEq] at h
          obtain ⟨-, rfl⟩ := h
          have h1 := store_eq_some hst
          have h2 := realloc_eq_some htmp
          simp only
          omega
    · split at h
      · simp at h
      · simp only [Option.some.injEq, Prod.mk.injEq] at h
        obtain ⟨-, rfl⟩ := h
        simp only
        omega

/-- Writing slot `n` and taking `n + 1` slots appends the value to the first `n`. -/
theorem take_succ_set (l : List T) (n : Nat) (v : T) (h : n < l.length) :
    (l.set n v).take (n + 1) = l.take n ++ [v] := by
  induction l generalizing n with
  | nil => simp at h
  | cons a l ih =>
    cases n with
    | zero => simp
    | succ n =>
      simp only [List.length_cons, Nat.add_lt_add_iff_right] at h
      simp [ih n h]

/-- Writing slot `m` does not change the first `n ≤ m` slots. -/
theorem take_set_of_le (l : List T) (n m : Nat) (v : T) (h : n ≤ m) :
    (l.set m v).take n = l.take n := by
  induction l generalizing n m with
  | nil => simp
  | cons a l ih =>
    cases n with
    | zero => simp
    | succ n =>
      cases m with
      | zero => omega
      | succ m => simp [ih n m (by omega)]

/-- Reading inside the block gives the slot. -/
theorem load_of_lt (junk : Nat → T) (buf : List T) (i : Nat) (h : i < buf.length) :
    load junk buf i = buf[i] := by
  simp [load, List.getD_eq_getElem?_getD, List.getElem?_eq_getElem h]

/-- Reading inside a box that holds `xs`. -/
theorem get_box_of_holds (env : Env T) (b : box_t T) (xs : List T) (old : T) (i : Nat)
    (hx : Holds b xs) (hi : i < xs.length) :
    get_box env (some b) (some old) i = some (SUCCESS, some b, some xs[i]) := by
  obtain ⟨hlen, htake⟩ := hx
  have hz : b.len ≠ 0 := by omega
  have hgt : ¬ i > b.len - 1 := by omega
  simp only [get_box, hz, hgt, if_false]
  cases hd : b.data with
  | none =>
    rw [hd] at htake
    simp only [Option.getD_none, List.take_nil] at htake
    subst htake
    simp at hi
  | some buf =>
    rw [hd] at htake
    simp only [Option.getD_some] at htake
    have hl : i < buf.length := by
      have := congrArg List.length htake
      simp only [List.length_take] at this
      omega
    simp only [load_of_lt _ _ _ hl]
    subst htake
    simp

/-! ## `len ≤ capacity` is kept by every call -/

/-- `reduce_box_T` keeps `len ≤ capacity`, whatever it returns. -/
theorem reduce_box_inv [Zero T] {env : Env T} {b b' : box_t T} {st : box_status}
    (h : reduce_box env b = some (st, b')) (h1 : b.len ≠ 0) (hb : b.len ≤ b.capacity) :
    b'.len ≤ b'.capacity := by
  unfold reduce_box at h
  split at h
  · simp at h
  · split at h
    · simp at h
    · simp only at h
      split at h
      · split at h <;>
        · simp only [Option.some.injEq, Prod.mk.injEq] at h
          obtain ⟨-, rfl⟩ := h
          simp only
          omega
      · simp only [Option.some.injEq, Prod.mk.injEq] at h
        obtain ⟨-, rfl⟩ := h
        simp only
        omega

/-- `pop` keeps `len ≤ capacity`, whatever it returns. -/
theorem pop_box_inv [Zero T] {env : Env T} {b b' : box_t T} {item item' : Option T}
    {st : box_status} (h : pop_box env (some b) item = some (st, some b', item'))
    (hb : b.len ≤ b.capacity) : b'.len ≤ b'.capacity := by
  rcases item with _ | old
  · simp only [pop_box, Option.some.injEq, Prod.mk.injEq] at h
    obtain ⟨-, ⟨rfl, -⟩⟩ := h
    exact hb
  · simp only [pop_box] at h
    by_cases hz : b.len = 0
    · simp only [hz, if_true, Option.some.injEq, Prod.mk.injEq] at h
      obtain ⟨-, ⟨rfl, -⟩⟩ := h
      exact hb
    · simp only [hz, if_false] at h
      split at h
      · simp at h
      · split at h
        · simp at h
        · rename_i hred
          simp only [Option.some.injEq, Prod.mk.injEq] at h
          obtain ⟨-, ⟨rfl, -⟩⟩ := h
          exact reduce_box_inv hred hz hb

/-- `remove` keeps `len ≤ capacity`, whatever it returns. -/
theorem remove_box_inv [Zero T] {env : Env T} {b b' : box_t T} {index : Nat}
    {st : box_status} (h : remove_box env (some b) index = some (st, some b'))
    (hb : b.len ≤ b.capacity) : b'.len ≤ b'.capacity := by
  simp only [remove_box] at h
  by_cases hz : b.len = 0
  · simp only [hz, if_true, Option.some.injEq, Prod.mk.injEq] at h
    obtain ⟨-, rfl⟩ := h
    exact hb
  · simp only [hz, if_false] at h
    split at h
    · simp only [Option.some.injEq, Prod.mk.injEq] at h
      obtain ⟨-, rfl⟩ := h
      exact hb
    · split at h
      · simp at h
      · split at h
        · simp at h
        · split at h
          · simp at h
          · rename_i hred
            simp only [Option.some.injEq, Prod.mk.injEq] at h
            obtain ⟨-, rfl⟩ := h
            exact reduce_box_inv hred hz hb

/-- `set` keeps `len ≤ capacity`, whatever it returns. -/
theorem set_box_inv {b b' : box_t T} {v : T} {index : Nat}
    {st : box_status} (h : set_box (some b) v index = some (st, some b'))
    (hb : b.len ≤ b.capacity) : b'.len ≤ b'.capacity := by
  unfold set_box at h
  simp only at h
  split at h
  · simp only [Option.some.injEq, Prod.mk.injEq] at h
    obtain ⟨-, rfl⟩ := h
    exact hb
  · split at h
    · simp only [Option.some.injEq, Prod.mk.injEq] at h
      obtain ⟨-, rfl⟩ := h
      exact hb
    · split at h
      · simp at h
      · split at h
        · simp at h
        · simp only [Option.some.injEq, Prod.mk.injEq] at h
          obtain ⟨-, rfl⟩ := h
          exact hb

/-- `cat` keeps `len ≤ capacity`, whatever it returns, when the capacities do not wrap. -/
theorem cat_box_inv {env : Env T} {d s d' : box_t T} {s' : Option (box_t T)}
    {st : box_status} (h : cat_box env (some d) (some s) = some (st, some d', s'))
    (hd : d.len ≤ d.capacity) (hs : s.len ≤ s.capacity)
    (hcap : d.capacity + s.capacity < 2 ^ 32) : d'.len ≤ d'.capacity := by
  unfold cat_box at h
  simp only at h
  split at h
  · simp only [Option.some.injEq, Prod.mk.injEq] at h
    obtain ⟨-, ⟨rfl, -⟩⟩ := h
    simp only
    omega
  · split at h
    · simp only [Option.some.injEq, Prod.mk.injEq] at h
      obtain ⟨-, ⟨rfl, -⟩⟩ := h
      simp only
      omega
    · simp at h

/-- `cat` of a box onto itself keeps `len ≤ capacity` when the capacity does not wrap. -/
theorem cat_box_self_inv {env : Env T} {d d' : box_t T}
    {st : box_status} (h : cat_box_self env (some d) = some (st, some d'))
    (hd : d.len ≤ d.capacity)
    (hcap : d.capacity + d.capacity < 2 ^ 32) : d'.len ≤ d'.capacity := by
  unfold cat_box_self at h
  simp only at h
  split at h
  · simp only [Option.some.injEq, Prod.mk.injEq] at h
    obtain ⟨-, rfl⟩ := h
    simp only
    omega
  · split at h
    · simp only [Option.some.injEq, Prod.mk.injEq] at h
      obtain ⟨-, rfl⟩ := h
      simp only
      omega
    · simp at h


/-! ## What `push`, `reduce`, `pop` and `remove` do -/

/-- `realloc` keeps the first slots of the old block. -/
theorem realloc_take {ok : Bool} {junk : Nat → T} {buf tmp : List T} {N : Nat}
    (h : realloc ok junk (some buf) N = some tmp) (n : Nat) (h1 : n ≤ N) (h2 : n ≤ buf.length) :
    tmp.take n = buf.take n := by
  obtain ⟨-, -, rfl⟩ := realloc_eq_some h
  simp only [Option.getD_some]
  rw [List.take_append_of_le_length (by simp only [List.length_take]; omega), List.take_take,
    Nat.min_eq_left h1]

/-- `realloc` keeps each slot of the old block that the new block still has. -/
theorem realloc_getElem? {ok : Bool} {junk : Nat → T} {buf tmp : List T} {N : Nat}
    (h : realloc ok junk (some buf) N = some tmp) (n : Nat) (h1 : n < N) (h2 : n < buf.length) :
    tmp[n]? = buf[n]? := by
  have := realloc_take h (n + 1) (by omega) (by omega)
  have h3 := congrArg (fun l => l[n]?) this
  simpa [List.getElem?_take] using h3

/-- What `reduce_box_T` does to a box whose block has at least `len ≥ 1` slots. -/
theorem reduce_box_spec [Zero T] (env : Env T) (b : box_t T) (buf : List T)
    (hd : b.data = some buf) (h1 : 1 ≤ b.len) (h2 : b.len ≤ buf.length) (h3 : b.len < 2 ^ 32) :
    ∃ buf', reduce_box env b =
        some (if b.len - 1 < b.capacity / 2 ∧ env.realloc_ok = false then REALLOC_ERROR else SUCCESS,
          { data := some buf', len := b.len - 1,
            capacity := if b.len - 1 < b.capacity / 2 then b.capacity / 2 else b.capacity }) ∧
      buf'.take (b.len - 1) = buf.take (b.len - 1) ∧ buf'[b.len - 1]? = some 0 := by
  have hm : (b.len + 2 ^ 32 - 1) % 2 ^ 32 = b.len - 1 := by omega
  have hst : b.len - 1 < buf.length := by omega
  by_cases hsh : b.len - 1 < b.capacity / 2
  · cases hok : env.realloc_ok with
    | false =>
      refine ⟨buf.set (b.len - 1) 0, ?_, take_set_of_le _ _ _ _ (Nat.le_refl _), ?_⟩
      · have hnz : b.capacity / 2 ≠ 0 := by omega
        simp only [reduce_box, hd, hm, store, hst, hsh, realloc, hok, if_true]
        simp [realloc_failed, hnz]
      · simp [List.getElem?_set, hst]
    | true =>
      obtain ⟨tmp, hre⟩ : ∃ tmp, realloc true env.junk (some (buf.set (b.len - 1) 0))
          (b.capacity / 2) = some tmp := by simp [realloc]
      refine ⟨tmp, ?_, ?_, ?_⟩
      · simp only [reduce_box, hd, hm, store, hst, hsh, if_true, hok, hre]
        simp
      · rw [realloc_take hre _ (by omega) (by simp only [List.length_set]; omega)]
        exact take_set_of_le _ _ _ _ (Nat.le_refl _)
      · rw [realloc_getElem? hre _ hsh (by simp only [List.length_set]; omega)]
        simp [List.getElem?_set, hst]
  · refine ⟨buf.set (b.len - 1) 0, ?_, take_set_of_le _ _ _ _ (Nat.le_refl _), ?_⟩
    · simp only [reduce_box, hd, hm, store, hst, hsh, if_true, if_false]
      simp
    · simp [List.getElem?_set, hst]

/-- The new capacity is an `unsigned int`. -/
theorem new_capacity_lt (c : Nat) : new_capacity c < 2 ^ 32 := by
  unfold new_capacity grow_f32
  split <;> exact Nat.mod_lt _ (by decide)

/-- The second half of `push_box_T`, once `box->data` is the non-null block `buf0`. -/
theorem push_box_tail_success [Zero T] {env : Env T} {b b1 : box_t T} {v : T} (buf0 : List T)
    (hlt : buf0.length < 2 ^ 32)
    (h : (if (b.len + 1) % 2 ^ 32 > b.capacity then
        match realloc env.realloc_ok env.junk (some buf0) (new_capacity b.capacity) with
        | none =>
          some (REALLOC_ERROR,
            some { b with data := realloc_failed (some buf0) (new_capacity b.capacity) })
        | some tmp =>
          match store tmp b.len v with
          | none => none
          | some tmp' =>
            some (SUCCESS, some { data := some tmp', len := (b.len + 1) % 2 ^ 32,
                                  capacity := new_capacity b.capacity })
      else
        match store buf0 b.len v with
        | none => none
        | some buf' =>
          some (SUCCESS, some { data := some buf', len := (b.len + 1) % 2 ^ 32,
                                capacity := b.capacity })) = some (SUCCESS, some b1)) :
    ∃ tmp : List T,
      b1 = { data := some (tmp.set b.len v), len := (b.len + 1) % 2 ^ 32,
             capacity := if (b.len + 1) % 2 ^ 32 > b.capacity then new_capacity b.capacity
                         else b.capacity } ∧
      b.len < tmp.length ∧ tmp.length < 2 ^ 32 ∧
      ∀ n, n ≤ buf0.length → n ≤ b.len → tmp.take n = buf0.take n := by
  split at h
  · rename_i hcond
    split at h
    · simp at h
    · rename_i tmp hre
      split at h
      · simp at h
      · rename_i tmp' hst
        obtain ⟨hlt', rfl⟩ := store_eq_some hst
        simp only [Option.some.injEq, Prod.mk.injEq, true_and] at h
        obtain ⟨-, hlen, -⟩ := realloc_eq_some hre
        refine ⟨tmp, ?_, hlt', ?_, ?_⟩
        · rw [← h, if_pos hcond]
        · rw [hlen]; exact new_capacity_lt _
        · intro n hn hn'
          exact realloc_take hre n (by omega) hn
  · rename_i hcond
    split at h
    · simp at h
    · rename_i tmp' hst
      obtain ⟨hlt', rfl⟩ := store_eq_some hst
      simp only [Option.some.injEq, Prod.mk.injEq, true_and] at h
      refine ⟨buf0, ?_, hlt', hlt, fun _ _ _ => rfl⟩
      rw [← h, if_neg hcond]

/-- What a call of `push_box_T` that returned `SUCCESS` has done. -/
theorem push_box_success [Zero T] {env : Env T} {b b1 : box_t T} {v : T}
    (h : push_box env (some b) v = some (SUCCESS, some b1))
    (hfit : (b.data.getD []).length < 2 ^ 32) :
    ∃ tmp : List T,
      b1 = { data := some (tmp.set b.len v), len := (b.len + 1) % 2 ^ 32,
             capacity := if (b.len + 1) % 2 ^ 32 > b.capacity then new_capacity b.capacity
                         else b.capacity } ∧
      b.len < tmp.length ∧ tmp.length < 2 ^ 32 ∧
      ∀ n, n ≤ (b.data.getD []).length → n ≤ b.len →
        tmp.take n = (b.data.getD []).take n := by
  cases hd : b.data with
  | none =>
    simp only [push_box, hd] at h
    cases hc : env.calloc_ok with
    | false => simp [calloc, hc] at h
    | true =>
      simp only [calloc, hc, if_true] at h
      obtain ⟨tmp, h1, h2, h3, -⟩ :=
        push_box_tail_success (List.replicate 1 (0 : T)) (by simp) h
      refine ⟨tmp, h1, h2, h3, ?_⟩
      intro n hn _
      simp only [Option.getD_none, List.length_nil, Nat.le_zero] at hn
      subst hn
      simp
  | some buf =>
    simp only [push_box, hd] at h
    rw [hd] at hfit
    exact push_box_tail_success buf hfit h

/-- A box that holds a non-empty sequence has a block of at least `len` slots. -/
theorem holds_data {b : box_t T} {xs : List T} (hx : Holds b xs) (hne : xs ≠ []) :
    ∃ buf, b.data = some buf ∧ b.len ≤ buf.length ∧ buf.take b.len = xs := by
  obtain ⟨hlen, htake⟩ := hx
  cases hd : b.data with
  | none =>
    rw [hd] at htake
    simp only [Option.getD_none, List.take_nil] at htake
    exact absurd htake.symm hne
  | some buf =>
    rw [hd] at htake
    simp only [Option.getD_some] at htake
    refine ⟨buf, rfl, ?_, htake⟩
    have := congrArg List.length htake
    simp only [List.length_take] at this
    omega

/-- A successful `push` appends the value to what the box holds. -/
theorem push_box_holds [Zero T] {env : Env T} {b b1 : box_t T} {xs : List T} {v : T}
    (hfit : Fits b) (hx : Holds b xs)
    (h : push_box env (some b) v = some (SUCCESS, some b1)) :
    Holds b1 (xs ++ [v]) ∧ Fits b1 ∧ b1.len = b.len + 1 := by
  obtain ⟨tmp, rfl, hlt, hlt2, htk⟩ := push_box_success h hfit.2.2
  obtain ⟨hlen, htake⟩ := hx
  have hle : b.len ≤ (b.data.getD []).length := by
    have := congrArg List.length htake
    simp only [List.length_take] at this
    omega
  have hmod : (b.len + 1) % 2 ^ 32 = b.len + 1 := by omega
  refine ⟨⟨?_, ?_⟩, ⟨?_, ?_, ?_⟩, ?_⟩
  · simp only [hmod, List.length_append, List.length_singleton]; omega
  · simp only [Option.getD_some, hmod]
    rw [take_succ_set _ _ _ hlt, htk _ hle (Nat.le_refl _), htake]
  · simp only [hmod]; omega
  · simp only
    split
    · exact new_capacity_lt _
    · exact hfit.2.1
  · simpa using hlt2
  · exact hmod

/-- What `pop_box_T` does to a box that holds `ys ++ [y]`. -/
theorem pop_box_spec [Zero T] (env : Env T) (b : box_t T) (ys : List T) (y old : T)
    (hx : Holds b (ys ++ [y])) (h3 : b.len < 2 ^ 32) :
    ∃ b', pop_box env (some b) (some old) =
        some (if b.len - 1 < b.capacity / 2 ∧ env.realloc_ok = false then REALLOC_ERROR
              else SUCCESS, some b', some y) ∧
      Holds b' ys ∧ b'.len = b.len - 1 ∧
      b'.capacity = (if b.len - 1 < b.capacity / 2 then b.capacity / 2 else b.capacity) := by
  obtain ⟨buf, hd, hle, htake⟩ := holds_data hx (by simp)
  have hlen : b.len = ys.length + 1 := by simpa using hx.1
  obtain ⟨buf', hred, htk, -⟩ := reduce_box_spec env b buf hd (by omega) hle h3
  have hz : b.len ≠ 0 := by omega
  have hitem : load env.junk buf (b.len - 1) = y := by
    rw [load_of_lt _ _ _ (by omega)]
    have h1 : (buf.take b.len)[b.len - 1]? = (ys ++ [y])[b.len - 1]? := by rw [htake]
    rw [List.getElem?_take_of_lt (by omega)] at h1
    rw [List.getElem?_eq_getElem (by omega)] at h1
    have h2 : b.len - 1 = ys.length := by omega
    simp only [h2, List.getElem?_concat_length, Option.some.injEq] at h1
    simpa only [h2] using h1
  refine ⟨{ data := some buf', len := b.len - 1,
            capacity := if b.len - 1 < b.capacity / 2 then b.capacity / 2 else b.capacity },
    ?_, ⟨?_, ?_⟩, rfl, rfl⟩
  · simp only [pop_box, hz, if_false, hd, hred, hitem]
  · simp only; omega
  · simp only [Option.getD_some]
    rw [htk]
    have := congrArg (List.take (b.len - 1)) htake
    rw [List.take_take, Nat.min_eq_left (by omega)] at this
    rw [this]
    have h2 : b.len - 1 = ys.length := by omega
    rw [h2]
    simp


/-- `(int)u` is `u` up to `INT_MAX`. -/
theorem to_int_of_lt {u : Nat} (h : u < 2 ^ 31) : to_int u = (u : Int) := by
  unfold to_int
  rw [if_pos h]

/-- Reading a slot other than the one just written. -/
theorem load_set_ne (junk : Nat → T) (buf : List T) (i j : Nat) (x : T) (h : i ≠ j) :
    load junk (buf.set i x) j = load junk buf j := by
  simp [load, List.getElem?_set, h]

/-- The loop of `remove_box_T`, run `n` times from `i ≥ 0` inside the block: slot `j`
of `[i, i + n)` receives what slot `j + 1` held before the loop. -/
theorem shift_loop_spec (junk : Nat → T) (n : Nat) :
    ∀ (i : Nat) (buf : List T), i + n ≤ buf.length →
      ∃ buf', shift_loop junk n (i : Int) buf = some buf' ∧ buf'.length = buf.length ∧
        ∀ j, buf'[j]? = if i ≤ j ∧ j < i + n then some (load junk buf (j + 1)) else buf[j]? := by
  induction n with
  | zero =>
    intro i buf _
    refine ⟨buf, rfl, rfl, ?_⟩
    intro j
    have : ¬ (i ≤ j ∧ j < i + 0) := by omega
    rw [if_neg this]
  | succ n ih =>
    intro i buf h
    have hi : i < buf.length := by omega
    obtain ⟨buf', h1, h2, h3⟩ := ih (i + 1) (buf.set i (load junk buf (i + 1)))
      (by simp only [List.length_set]; omega)
    refine ⟨buf', ?_, by simpa using h2, ?_⟩
    · have hneg : ¬ ((i : Int) < 0) := by omega
      simp only [shift_loop, hneg, if_false, Int.toNat_ofNat, store, hi, if_true]
      exact h1
    · intro j
      rw [h3 j]
      by_cases hj : i + 1 ≤ j ∧ j < i + 1 + n
      · have hj' : i ≤ j ∧ j < i + (n + 1) := by omega
        rw [if_pos hj, if_pos hj', load_set_ne _ _ _ _ _ (by omega)]
      · rw [if_neg hj]
        by_cases hij : i = j
        · subst hij
          have hj' : i ≤ i ∧ i < i + (n + 1) := by omega
          rw [if_pos hj']
          simp [List.getElem?_set, hi]
        · have hj' : ¬ (i ≤ j ∧ j < i + (n + 1)) := by omega
          rw [if_neg hj']
          simp [List.getElem?_set, hij]

/-- What `remove_box_T` does to a box of fewer than `2 ^ 31` elements that holds `xs`. -/
theorem remove_box_spec [Zero T] (env : Env T) (b : box_t T) (xs : List T) (i : Nat)
    (hx : Holds b xs) (hi : i < b.len) (hlen : b.len < 2 ^ 31) :
    ∃ b', remove_box env (some b) i =
        some (if b.len - 1 < b.capacity / 2 ∧ env.realloc_ok = false then REALLOC_ERROR
              else SUCCESS, some b') ∧
      Holds b' (xs.eraseIdx i) ∧ b'.len = b.len - 1 ∧
      b'.capacity = (if b.len - 1 < b.capacity / 2 then b.capacity / 2 else b.capacity) := by
  have hne : xs ≠ [] := by
    intro h
    have := hx.1
    rw [h] at this
    simp at this
    omega
  obtain ⟨buf, hd, hle, htake⟩ := holds_data hx hne
  have hz : b.len ≠ 0 := by omega
  have hgt : ¬ i > b.len - 1 := by omega
  have hcnt : (to_int b.len - (i : Int)).toNat = b.len - i := by
    rw [to_int_of_lt hlen]
    omega
  obtain ⟨buf1, hloop, hl1, hget⟩ := shift_loop_spec env.junk (b.len - i) i buf (by omega)
  obtain ⟨buf2, hred, htk, -⟩ := reduce_box_spec env { b with data := some buf1 } buf1 rfl
    (by simp only; omega) (by simp only; omega) (by simp only; omega)
  simp only at hred htk
  refine ⟨{ data := some buf2, len := b.len - 1,
            capacity := if b.len - 1 < b.capacity / 2 then b.capacity / 2 else b.capacity },
    ?_, ⟨?_, ?_⟩, rfl, rfl⟩
  · simp only [remove_box, hz, hgt, if_false, hd, to_int_of_lt (show i < 2 ^ 31 by omega),
      hcnt, hloop, hred]
  · simp only [List.length_eraseIdx, ← hx.1, hi, if_true]
  · simp only [Option.getD_some]
    rw [htk]
    apply List.ext_getElem?
    intro j
    rw [List.getElem?_take, List.getElem?_eraseIdx, ← htake, hget j]
    by_cases hj : j < b.len - 1
    · rw [if_pos hj]
      by_cases hji : j < i
      · have h1 : ¬ (i ≤ j ∧ j < i + (b.len - i)) := by omega
        rw [if_neg h1, if_pos hji, List.getElem?_take_of_lt (by omega)]
      · have h1 : i ≤ j ∧ j < i + (b.len - i) := by omega
        rw [if_pos h1, if_neg hji, List.getElem?_take_of_lt (by omega),
          load_of_lt _ _ _ (by omega), List.getElem?_eq_getElem (by omega)]
    · rw [if_neg hj]
      have hji : ¬ j < i := by omega
      rw [if_neg hji, List.getElem?_take_eq_none (by omega)]


/-- The path of `remove_box_T` through the loop and `reduce_box_T`. -/
theorem remove_box_eq [Zero T] (env : Env T) (b b' : box_t T) (i : Nat) (buf buf' : List T)
    (st : box_status) (hz : b.len ≠ 0) (hi : ¬ i > b.len - 1) (hd : b.data = some buf)
    (hloop : shift_loop env.junk (to_int b.len - to_int i).toNat (to_int i) buf = some buf')
    (hred : reduce_box env { b with data := some buf' } = some (st, b')) :
    remove_box env (some b) i = some (st, some b') := by
  simp only [remove_box, hz, hi, if_false, hd, hloop, hred]

/-- On a box of `2 ^ 31` elements `(int)box->len` is negative, the loop of
`remove_box_T` does not run, and `remove(0)` only drops the last element. -/
theorem remove_box_int_min (env : Env Nat) (b : box_t Nat) (l : List Nat)
    (hd : b.data = some (1 :: l)) (hlen : b.len = 2147483648) (hcap : b.capacity = 2147483648)
    (hl : l.length = 2147483647) :
    ∃ buf', remove_box env (some b) 0 =
        some (SUCCESS, some { data := some buf', len := 2147483647, capacity := 2147483648 }) ∧
      buf'.take 2147483647 = (1 :: l).take 2147483647 := by
  have h1 : (to_int 2147483648 - to_int 0).toNat = 0 := by decide
  have hll : b.len ≤ (1 :: l).length := by rw [List.length_cons, hl, hlen]
  have hb1 : 1 ≤ b.len := by rw [hlen]; decide
  have hb2 : b.len < 2 ^ 32 := by rw [hlen]; decide
  obtain ⟨buf', hred, htk, -⟩ := reduce_box_spec env
    { data := some (1 :: l), len := b.len, capacity := b.capacity } (1 :: l) rfl hb1 hll hb2
  simp only [hlen, hcap] at hred htk
  have h7 : ¬ (2147483648 - 1 < 2147483648 / 2 ∧ env.realloc_ok = false) := by
    intro h
    exact absurd h.1 (by decide)
  have h8 : ¬ (2147483648 - 1 < 2147483648 / 2) := by decide
  rw [if_neg h7, if_neg h8] at hred
  refine ⟨buf', ?_, htk⟩
  apply remove_box_eq env b _ 0 (1 :: l) (1 :: l) SUCCESS
  · rw [hlen]; decide
  · rw [hlen]; decide
  · exact hd
  · rw [hlen, h1]; rfl
  · rw [hlen, hcap]; exact hred

/-- A box whose first slot is still 1 does not hold the zeros that follow the 1. -/
theorem not_holds_int_min (l buf' : List Nat) (h0 : l[0]? = some 0)
    (htk : buf'.take 2147483647 = (1 :: l).take 2147483647) :
    ¬ Holds ({ data := some buf', len := 2147483647, capacity := 2147483648 } : box_t Nat)
      ((1 :: l).eraseIdx 0) := by
  rintro ⟨-, htake⟩
  simp only [Option.getD_some, List.eraseIdx_cons_zero] at htake
  rw [htk] at htake
  have h := congrArg (fun m => m[0]?) htake
  simp only [h0] at h
  rw [List.getElem?_take_of_lt (by decide)] at h
  simp at h


/-! ## What `cat` does -/

/-- Copying `n` slots out of a block of at least `n` slots gives its first `n` slots. -/
theorem map_load_range (junk : Nat → T) (buf : List T) (n : Nat) (h : n ≤ buf.length) :
    (List.range n).map (fun k => load junk buf k) = buf.take n := by
  apply List.ext_getElem?
  intro j
  rw [List.getElem?_map, List.getElem?_take]
  by_cases hj : j < n
  · rw [List.getElem?_range hj, if_pos hj]
    simp only [Option.map_some']
    rw [load_of_lt _ _ _ (by omega), List.getElem?_eq_getElem (by omega)]
  · rw [if_neg hj, List.getElem?_eq_none (by simpa using hj)]
    rfl

/-- `realloc` keeps the first slots of the old block (`NULL` has none). -/
theorem realloc_take_getD {ok : Bool} {junk : Nat → T} {ptr : Option (List T)} {tmp : List T}
    {N : Nat} (h : realloc ok junk ptr N = some tmp) (n : Nat) (h1 : n ≤ N)
    (h2 : n ≤ (ptr.getD []).length) : tmp.take n = (ptr.getD []).take n := by
  obtain ⟨-, -, rfl⟩ := realloc_eq_some h
  rw [List.take_append_of_le_length (by simp only [List.length_take]; omega), List.take_take,
    Nat.min_eq_left h1]

/-- A box that holds `xs` has a block (or `NULL`) of at least `len` slots. -/
theorem holds_le {b : box_t T} {xs : List T} (hx : Holds b xs) :
    b.len ≤ (b.data.getD []).length := by
  have := congrArg List.length hx.2
  simp only [List.length_take] at this
  have := hx.1
  omega

/-- What `cat_box_T` does when its reallocation succeeds and nothing wraps. -/
theorem cat_box_spec (env : Env T) (d s : box_t T) (xs ys : List T)
    (hd : Holds d xs) (hs : Holds s ys) (hsum : d.len + s.len ≤ d.capacity + s.capacity)
    (hcap : d.capacity + s.capacity < 2 ^ 32) (hre : env.realloc_ok = true) :
    ∃ d', cat_box env (some d) (some s) = some (SUCCESS, some d', some s) ∧
      Holds d' (xs ++ ys) ∧ d'.len = d.len + s.len ∧ d'.capacity = d.capacity + s.capacity := by
  have hmc : (d.capacity + s.capacity) % 2 ^ 32 = d.capacity + s.capacity := by omega
  have hml : (d.len + s.len) % 2 ^ 32 = d.len + s.len := by omega
  obtain ⟨tmp, htmp⟩ : ∃ tmp, realloc env.realloc_ok env.junk d.data
      (d.capacity + s.capacity) = some tmp := by simp [realloc, hre]
  obtain ⟨-, htl, -⟩ := realloc_eq_some htmp
  have htk := realloc_take_getD htmp d.len (by omega) (holds_le hd)
  rw [hd.2] at htk
  by_cases hz : s.len = 0
  · have hys : ys = [] := by
      have := hs.1
      rw [hz] at this
      exact List.length_eq_zero.mp this.symm
    refine ⟨{ data := some tmp, len := d.len + s.len, capacity := d.capacity + s.capacity },
      ?_, ⟨?_, ?_⟩, rfl, rfl⟩
    · have hml0 := hml
      rw [hz] at hml0
      simp only [cat_box, hmc, htmp, memcpy, hz, if_true, hml0]
    · simp only [hz, hys, List.append_nil, Nat.add_zero]; exact hd.1
    · simp only [Option.getD_some, hz, hys, List.append_nil, Nat.add_zero]; exact htk
  · have hne : ys ≠ [] := by
      intro h
      have := hs.1
      rw [h] at this
      exact hz this
    obtain ⟨sb, hsd, hsle, hstake⟩ := holds_data hs hne
    have hfit : d.len + s.len ≤ tmp.length := by omega
    refine ⟨{ data := some (tmp.take d.len ++ (List.range s.len).map (fun k => load env.junk sb k)
                             ++ tmp.drop (d.len + s.len)),
              len := d.len + s.len, capacity := d.capacity + s.capacity },
      ?_, ⟨?_, ?_⟩, rfl, rfl⟩
    · simp only [cat_box, hmc, hml, htmp, memcpy, hz, if_false, hsd, hfit, if_true]
    · simp only [List.length_append, hd.1, hs.1]
    · simp only [Option.getD_some]
      rw [map_load_range _ _ _ hsle, hstake, htk]
      rw [List.take_append_of_le_length (by
        simp only [List.length_append, hd.1, hs.1]; omega)]
      rw [List.take_of_length_le (by simp only [List.length_append, hd.1, hs.1]; omega)]


/-! ## Statuses of `reduce` and `remove` -/

/-- `reduce_box_T` returns `SUCCESS` or `REALLOC_ERROR`. -/
theorem reduce_box_status [Zero T] {env : Env T} {b b' : box_t T} {st : box_status}
    (h : reduce_box env b = some (st, b')) : st = SUCCESS ∨ st = REALLOC_ERROR := by
  unfold reduce_box at h
  split at h
  · simp at h
  · split at h
    · simp at h
    · simp only at h
      split at h
      · split at h
        · simp only [Option.some.injEq, Prod.mk.injEq] at h
          exact Or.inr h.1.symm
        · simp only [Option.some.injEq, Prod.mk.injEq] at h
          exact Or.inl h.1.symm
      · simp only [Option.some.injEq, Prod.mk.injEq] at h
        exact Or.inl h.1.symm

/-- `remove` on a non-empty box returns `OUT_OF_BOUNDS` only for an index above `len - 1`. -/
theorem remove_box_status [Zero T] {env : Env T} {b : box_t T} {i : Nat}
    {r : Option (box_t T)} (h : remove_box env (some b) i = some (OUT_OF_BOUNDS, r))
    (hz : b.len ≠ 0) : i > b.len - 1 := by
  by_contra hi
  simp only [remove_box, hz, hi, if_false] at h
  split at h
  · simp at h
  · split at h
    · simp at h
    · split at h
      · simp at h
      · rename_i hred
        simp only [Option.some.injEq, Prod.mk.injEq] at h
        rcases reduce_box_status hred with h' | h' <;> rw [h'] at h <;> simp at h


/-! ## What `set` does -/

/-- A `set` inside a box that holds `xs` succeeds and makes it hold `xs.set i v`. -/
theorem set_box_spec (b : box_t T) (xs : List T) (i : Nat) (v : T)
    (hx : Holds b xs) (hi : i < b.len) :
    ∃ buf, b.data = some buf ∧
      set_box (some b) v i = some (SUCCESS, some { b with data := some (buf.set i v) }) ∧
      Holds { b with data := some (buf.set i v) } (xs.set i v) := by
  have hne : xs ≠ [] := by
    intro h
    have := hx.1
    rw [h] at this
    simp at this
    omega
  obtain ⟨buf, hd, hle, htake⟩ := holds_data hx hne
  have hz : b.len ≠ 0 := by omega
  have hgt : ¬ i > b.len - 1 := by omega
  have hst : i < buf.length := by omega
  refine ⟨buf, hd, ?_, ⟨?_, ?_⟩⟩
  · simp only [set_box, hz, hgt, if_false, hd, store, hst, if_true]
  · simp only [List.length_set]; exact hx.1
  · simp only [Option.getD_some]
    rw [← htake]
    apply List.ext_getElem?
    intro j
    simp only [List.getElem?_take, List.getElem?_set, List.length_take]
    by_cases hj : j < b.len
    · by_cases hij : i = j
      · subst hij
        simp [hj, hst, hi]
      · simp [hj, hij]
    · have hij : i ≠ j := by omega
      simp [hj, hij]


/-! ## The slots `remove` touches -/

/-- The slots the loop touches, for a start `i ≥ 0`: all of `[i, i + n]`, and
the slot `i + n` when the loop runs at all. -/
theorem shift_loop_slots_spec (n : Nat) : ∀ (i : Nat),
    (∀ s ∈ shift_loop_slots n (i : Int), (i : Int) ≤ s ∧ s ≤ ((i + n : Nat) : Int)) ∧
    (1 ≤ n → ((i + n : Nat) : Int) ∈ shift_loop_slots n (i : Int)) := by
  induction n with
  | zero =>
    intro i
    simp [shift_loop_slots]
  | succ n ih =>
    intro i
    obtain ⟨ih1, ih2⟩ := ih (i + 1)
    have hcast : ((i : Int) + 1) = ((i + 1 : Nat) : Int) := by push_cast; rfl
    constructor
    · intro s hs
      simp only [shift_loop_slots, List.mem_cons] at hs
      rcases hs with rfl | rfl | hs
      · constructor <;> push_cast <;> omega
      · constructor <;> push_cast <;> omega
      · rw [hcast] at hs
        have := ih1 s hs
        constructor
        · have := this.1; push_cast at this ⊢; omega
        · have := this.2; push_cast at this ⊢; omega
    · intro _
      simp only [shift_loop_slots, List.mem_cons]
      by_cases hn : 1 ≤ n
      · right; right
        rw [hcast]
        have := ih2 hn
        rwa [show i + 1 + n = i + (n + 1) by omega] at this
      · left
        have : n = 0 := by omega
        subst this
        push_cast
        omega

/-- On a box of fewer than `2 ^ 31` elements, every slot `remove` touches is below
any bound above `len`. -/
theorem remove_box_slots_below (b : box_t T) (i n : Nat) (hlt : b.len < n)
    (hlen : b.len < 2 ^ 31) :
    ∀ s ∈ remove_box_slots b i, 0 ≤ s ∧ s < (n : Int) := by
  intro s hs
  by_cases hz : b.len = 0
  · simp [remove_box_slots, hz] at hs
  · by_cases hgt : i > b.len - 1
    · simp [remove_box_slots, hz, hgt] at hs
    · have hcnt : (to_int b.len - (i : Int)).toNat = b.len - i := by
        rw [to_int_of_lt hlen]
        omega
      have hm : (b.len + 2 ^ 32 - 1) % 2 ^ 32 = b.len - 1 := by omega
      simp only [remove_box_slots, hz, hgt, if_false, to_int_of_lt (show i < 2 ^ 31 by omega),
        hcnt, hm, List.mem_append, List.mem_singleton] at hs
      rcases hs with hs | rfl
      · have := (shift_loop_slots_spec (b.len - i) i).1 s hs
        have h1 := this.1
        have h2 := this.2
        push_cast at h2
        omega
      · omega

/-! ## C1 -/

/-- C1.  `len ≤ capacity` holds in every reachable box: after a successful
`create_box_T` or `create_box_T_from` and after every later call of `push`, `pop`,
`remove`, `set` and `cat` (onto another reachable box or onto itself, the sums of
`cat` not wrapping), whatever status the call returned. -/
theorem reachable_len_le_capacity [Zero T] (b : box_t T) (h : Reachable b) :
    b.len ≤ b.capacity := by
  induction h with
  | create hdr_ok b hc =>
    unfold create_box at hc
    split at hc
    · simp at hc
    · split at hc
      · simp only [Prod.mk.injEq, Option.some.injEq, true_and] at hc
        subst hc
        simp
      · simp at hc
  | create_from hdr_ok data_ok v b hc =>
    unfold create_box_from at hc
    split at hc
    · simp at hc
    · split at hc
      · split at hc
        · simp at hc
        · simp only [Prod.mk.injEq, Option.some.injEq, true_and] at hc
          subst hc
          simp
      · simp at hc
  | push env b v st b' _ hp ih => exact push_box_inv hp ih
  | pop env b item st b' item' _ hp ih => exact pop_box_inv hp ih
  | remove env b index st b' _ hp ih => exact remove_box_inv hp ih
  | set b v index st b' _ hp ih => exact set_box_inv hp ih
  | cat env d s st d' s' _ _ hcap _ hp ihd ihs => exact cat_box_inv hp ihd ihs hcap
  | cat_self env d st d' _ hcap _ hp ih => exact cat_box_self_inv hp ih hcap

/-- Witness of C1: the box made by `create_box_T` and one `push` of `7`. -/
theorem reachable_len_le_capacity_witness :
    Reachable ({ data := some [7], len := 1, capacity := 1 } : box_t Nat) ∧
      ({ data := some [7], len := 1, capacity := 1 } : box_t Nat).len ≤
        ({ data := some [7], len := 1, capacity := 1 } : box_t Nat).capacity :=
  have h : Reachable ({ data := some [7], len := 1, capacity := 1 } : box_t Nat) :=
    Reachable.push ⟨true, true, fun _ => 0⟩ ⟨none, 0, 1⟩ 7 SUCCESS _
      (Reachable.create true _ rfl) rfl
  ⟨h, reachable_len_le_capacity _ h⟩

/-! ## C2: pushing a list onto a fresh box -/

set_option maxRecDepth 100000 in
/-- The first 50 growths from capacity 1 are strict and stay below `2 ^ 32`. -/
theorem cap_chain_step :
    ∀ k < 50, new_capacity^[k] 1 < new_capacity^[k + 1] 1 ∧ new_capacity^[k + 1] 1 < 2 ^ 32 := by
  decide

set_option maxRecDepth 100000 in
/-- The capacities reached from 1 by at most 50 growths are at most 3578529792. -/
theorem cap_chain_le : ∀ k < 51, new_capacity^[k] 1 ≤ 3578529792 := by
  decide

set_option maxRecDepth 100000 in
/-- The 50th growth from capacity 1 reaches 3578529792. -/
theorem cap_chain_last : new_capacity^[50] 1 = 3578529792 := by
  decide

/-- One `push` with the allocator succeeding, onto a box that is `Grown` and holds fewer than 3578529792 values. -/
theorem push_box_grown [Zero T] (env : Env T) (b : box_t T) (xs : List T) (v : T) (k : Nat)
    (hc : env.calloc_ok = true) (hr : env.realloc_ok = true)
    (hx : Holds b xs) (hg : Grown b k) (hN : xs.length < 3578529792) :
    ∃ b' k', push_box env (some b) v = some (SUCCESS, some b') ∧ Holds b' (xs ++ [v]) ∧
      Grown b' k' := by
  obtain ⟨hlen, htake⟩ := hx
  obtain ⟨hk, hcap, hle, hback⟩ := hg
  have hcle : b.capacity ≤ 3578529792 := hcap ▸ cap_chain_le k (by omega)
  cases hd : b.data with
  | none =>
    rw [hd] at htake hback
    simp only [Option.getD_none, List.take_nil] at htake
    subst htake
    simp only at hback
    simp only [List.length_nil] at hlen
    refine ⟨{ data := some [v], len := 1, capacity := b.capacity }, k, ?_, ?_, ?_⟩
    · simp [push_box, hd, calloc, hc, store, hlen, hback]
    · simp [Holds]
    · exact ⟨hk, hcap, by simp [hback], by simp [hback]⟩
  | some buf =>
    rw [hd] at htake hback
    simp only [Option.getD_some] at htake
    simp only at hback
    by_cases hcond : (b.len + 1) % 2 ^ 32 > b.capacity
    · have hfull : b.len = b.capacity := by omega
      have hk50 : k < 50 := by
        rcases Nat.lt_or_ge k 50 with h | h
        · exact h
        · have : k = 50 := by omega
          subst this
          rw [cap_chain_last] at hcap
          omega
      have hstep := cap_chain_step k hk50
      have hnew : new_capacity b.capacity = new_capacity^[k + 1] 1 := by
        rw [Function.iterate_succ_apply', hcap]
      have hbx : buf = xs := by
        rw [← htake, List.take_of_length_le (by omega)]
      refine ⟨{ data := some (((buf.take (new_capacity b.capacity)) ++
                          (List.range (new_capacity b.capacity - buf.length)).map
                            (fun j => env.junk (buf.length + j))).set b.len v),
                len := b.len + 1, capacity := new_capacity b.capacity }, k + 1, ?_, ?_, ?_⟩
      · have hmod : (b.len + 1) % 2 ^ 32 = b.len + 1 := by omega
        rw [hmod] at hcond
        have hst : b.len < ((buf.take (new_capacity b.capacity)) ++
          (List.range (new_capacity b.capacity - buf.length)).map
            (fun j => env.junk (buf.length + j))).length := by
          simp only [List.length_append, List.length_take, List.length_map, List.length_range]
          omega
        simp only [push_box, hd, hcond, if_true, realloc, hr, Option.getD_some, store, hst, hmod]
      · constructor
        · simp [hlen]
        · simp only [Option.getD_some]
          rw [take_succ_set]
          · rw [List.take_append_of_le_length (by simp only [List.length_take]; omega),
              List.take_take, Nat.min_eq_left (by omega), htake]
          · simp only [List.length_append, List.length_take, List.length_map, List.length_range]
            omega
      · refine ⟨by omega, hnew, ?_, ?_⟩
        · simp only; omega
        · simp only [List.length_set, List.length_append, List.length_take, List.length_map,
            List.length_range]
          omega
    · have hmod : (b.len + 1) % 2 ^ 32 = b.len + 1 := by omega
      have hst : b.len < buf.length := by omega
      rw [hmod] at hcond
      refine ⟨{ data := some (buf.set b.len v), len := b.len + 1, capacity := b.capacity },
        k, ?_, ?_, ?_⟩
      · simp only [push_box, hd, hcond, if_false, store, hst, if_true, hmod]
      · constructor
        · simp [hlen]
        · simp only [Option.getD_some]
          rw [take_succ_set _ _ _ hst, htake]
      · refine ⟨hk, hcap, ?_, ?_⟩
        · simp only; omega
        · simp only [List.length_set]; exact hback

/-- Pushing a list onto a box that is `Grown`, up to 3578529792 values in all. -/
theorem push_each_grown [Zero T] (env : Nat → Env T)
    (henv : ∀ k, (env k).calloc_ok = true ∧ (env k).realloc_ok = true)
    (vs : List T) : ∀ (n : Nat) (b : box_t T) (xs : List T) (k : Nat),
      Holds b xs → Grown b k → xs.length + vs.length ≤ 3578529792 →
      ∃ b' k', push_each env n (some b) vs = some (some b') ∧ Holds b' (xs ++ vs) ∧
        Grown b' k' := by
  induction vs with
  | nil =>
    intro n b xs k hx hg _
    exact ⟨b, k, rfl, by simpa using hx, hg⟩
  | cons v vs ih =>
    intro n b xs k hx hg hN
    simp only [List.length_cons] at hN
    obtain ⟨b1, k1, hp, hx1, hg1⟩ :=
      push_box_grown (env n) b xs v k (henv n).1 (henv n).2 hx hg (by omega)
    obtain ⟨b2, k2, hp2, hx2, hg2⟩ :=
      ih (n + 1) b1 (xs ++ [v]) k1 hx1 hg1 (by simp only [List.length_append, List.length_singleton]; omega)
    refine ⟨b2, k2, ?_, by simpa using hx2, hg2⟩
    simp only [push_each, hp, hp2]

/-- After a successful `push`, `len` is an `unsigned int`. -/
theorem push_box_len_lt [Zero T] {env : Env T} {box : Option (box_t T)} {v : T} {b' : box_t T}
    (h : push_box env box v = some (SUCCESS, some b')) : b'.len < 2 ^ 32 := by
  unfold push_box at h
  split at h
  · simp at h
  · split at h
    · simp at h
    · split at h
      · split at h
        · simp at h
        · split at h
          · simp at h
          · simp only [Option.some.injEq, Prod.mk.injEq, true_and] at h
            subst h
            exact Nat.mod_lt _ (by decide)
      · split at h
        · simp at h
        · simp only [Option.some.injEq, Prod.mk.injEq, true_and] at h
          subst h
          exact Nat.mod_lt _ (by decide)

/-- After pushing a non-empty list, `len` is an `unsigned int`. -/
theorem push_each_len_lt [Zero T] (env : Nat → Env T) (vs : List T) :
    ∀ (n : Nat) (box : Option (box_t T)) (v : T) (b' : box_t T),
      push_each env n box (v :: vs) = some (some b') → b'.len < 2 ^ 32 := by
  induction vs with
  | nil =>
    intro n box v b' h
    simp only [push_each] at h
    split at h
    · rename_i box1 hp
      simp only [Option.some.injEq] at h
      subst h
      exact push_box_len_lt hp
    · simp at h
  | cons w ws ih =>
    intro n box v b' h
    rw [push_each] at h
    split at h
    · exact ih _ _ _ _ h
    · simp at h

/-- Pushing `xs ++ ys` is pushing `xs` and then `ys`. -/
theorem push_each_append [Zero T] (env : Nat → Env T) (xs ys : List T) :
    ∀ (n : Nat) (box : Option (box_t T)),
      push_each env n box (xs ++ ys) =
        (push_each env n box xs).bind (fun box' => push_each env (n + xs.length) box' ys) := by
  induction xs with
  | nil => intro n box; simp [push_each]
  | cons x xs ih =>
    intro n box
    rw [List.cons_append, push_each, push_each]
    split
    · rw [ih, List.length_cons]
      congr 1
      funext box'
      congr 1
      omega
    · rfl

set_option maxRecDepth 100000 in
/-- The growth from 3578529792 does not fit 32 bits: the new capacity wraps. -/
theorem new_capacity_last : new_capacity 3578529792 = 1072827392 := by decide

/-- The bound 3578529792 is the last length that works: after that many values the box
is full with capacity 3578529792, the next capacity wraps to 1072827392, and the
write of one more value falls outside the block `realloc` returned. -/
theorem push_each_overflow [Zero T] (env : Nat → Env T)
    (henv : ∀ k, (env k).calloc_ok = true ∧ (env k).realloc_ok = true)
    (xs : List T) (v : T) (hN : xs.length = 3578529792) :
    push_each env 0 (create_box true none).2 (xs ++ [v]) = none := by
  obtain ⟨b, k, hp, hx, hg⟩ :=
    push_each_grown env henv xs 0 ({ data := none, len := 0, capacity := 1 } : box_t T) [] 0
      ⟨rfl, rfl⟩ ⟨by decide, rfl, Nat.zero_le _, rfl⟩ (by simp only [List.length_nil]; omega)
  simp only [List.nil_append] at hx
  have hp' : push_each env 0 (create_box true none).2 xs = some (some b) := hp
  rw [push_each_append, hp']
  simp only [Option.some_bind, push_each]
  obtain ⟨hk, hcap, hle, hback⟩ := hg
  have hlen : b.len = 3578529792 := by rw [hx.1, hN]
  have hcle : b.capacity ≤ 3578529792 := hcap ▸ cap_chain_le k (by omega)
  have hc : b.capacity = 3578529792 := by omega
  have hne : xs ≠ [] := by
    intro h
    rw [h] at hN
    simp at hN
  obtain ⟨buf, hd, -, -⟩ := holds_data hx hne
  have hcond : (3578529792 + 1) % 2 ^ 32 > 3578529792 := by decide
  have hnot : ¬ (3578529792 < 1072827392) := by decide
  have hpush : push_box (env (0 + xs.length)) (some b) v = none := by
    obtain ⟨tmp, htmp⟩ : ∃ tmp, realloc (env (0 + xs.length)).realloc_ok (env (0 + xs.length)).junk
        (some buf) 1072827392 = some tmp := by simp [realloc, (henv _).2]
    obtain ⟨-, htl, -⟩ := realloc_eq_some htmp
    simp only [push_box, hd, hlen, hc, hcond, if_true, new_capacity_last, htmp, store, htl, hnot,
      if_false]
  rw [hpush]

/-- C2 (amended).  For every list `vs` of at most 3578529792 values (the last
capacity the growth rule reaches before the 32-bit capacity overflows), with every
allocation succeeding: `create_box_T` returns `SUCCESS`, pushing the values of `vs`
in order onto the new box returns `SUCCESS` each time, and the final box has
`len = |vs|` and `get` returns `SUCCESS` and `vs[i]` at every `i < |vs|`. -/
theorem push_each_get [Zero T] (env : Nat → Env T)
    (henv : ∀ k, (env k).calloc_ok = true ∧ (env k).realloc_ok = true)
    (vs : List T) (hN : vs.length ≤ 3578529792) :
    (create_box true (none : Option (box_t T))).1 = SUCCESS ∧
    ∃ b, push_each env 0 (create_box true none).2 vs = some (some b) ∧ b.len = vs.length ∧
      ∀ (e : Env T) (old : T) (i : Nat) (hi : i < vs.length),
        get_box e (some b) (some old) i = some (SUCCESS, some b, some vs[i]) := by
  refine ⟨rfl, ?_⟩
  obtain ⟨b, k, hp, hx, -⟩ :=
    push_each_grown env henv vs 0 ({ data := none, len := 0, capacity := 1 } : box_t T) [] 0
      ⟨rfl, rfl⟩ ⟨by decide, rfl, Nat.zero_le _, rfl⟩ (by simpa using hN)
  simp only [List.nil_append] at hx
  refine ⟨b, hp, hx.1, ?_⟩
  intro e old i hi
  exact get_box_of_holds e b vs old i hx hi

/-- Witness of C2: the values 10, 20, 30. -/
theorem push_each_get_witness :
    (create_box true (none : Option (box_t Nat))).1 = SUCCESS ∧
    ∃ b, push_each (fun _ => ⟨true, true, fun _ => 0⟩) 0 (create_box true none).2 [10, 20, 30]
        = some (some b) ∧ b.len = [10, 20, 30].length ∧
      ∀ (e : Env Nat) (old : Nat) (i : Nat) (hi : i < [10, 20, 30].length),
        get_box e (some b) (some old) i = some (SUCCESS, some b, some [10, 20, 30][i]) :=
  push_each_get (fun _ => ⟨true, true, fun _ => 0⟩) (fun _ => ⟨rfl, rfl⟩) [10, 20, 30] (by decide)

/-- C2 as stated fails: `2 ^ 32` values cannot all be pushed with `len` ending
equal to their number, because `len` is an `unsigned int`. -/
theorem push_each_len_wraps :
    ¬ ∃ b, push_each (fun _ => (⟨true, true, fun _ => 0⟩ : Env Nat)) 0 (create_box true none).2
        (List.replicate (2 ^ 32) 0) = some (some b) ∧
      b.len = (List.replicate (2 ^ 32) (0 : Nat)).length := by
  rintro ⟨b, hp, hlen⟩
  have hrep : List.replicate (2 ^ 32) (0 : Nat) = 0 :: List.replicate (2 ^ 32 - 1) 0 := rfl
  rw [List.length_replicate] at hlen
  rw [hrep] at hp
  have := push_each_len_lt _ _ _ _ _ _ hp
  omega

/-! ## C3: pop undoes push -/

/-- C3 (amended).  Pop undoes push: for every box that holds `xs` (its fields and
block size being `unsigned int` values) and every value `v`, a `push(v)` that
returned `SUCCESS` followed by a `pop` whose reallocation, if the pop shrinks the
box, succeeds: the `pop` returns `SUCCESS`, yields `v`, and leaves the box holding
exactly `xs`, with `len = |xs|`.  The premise `len ≤ capacity` is not needed. -/
theorem push_pop [Zero T] (env1 env2 : Env T) (b b1 : box_t T) (xs : List T) (v old : T)
    (hfit : Fits b) (hx : Holds b xs)
    (hpush : push_box env1 (some b) v = some (SUCCESS, some b1))
    (hre : env2.realloc_ok = true) :
    ∃ b2, pop_box env2 (some b1) (some old) = some (SUCCESS, some b2, some v) ∧
      Holds b2 xs ∧ b2.len = xs.length := by
  obtain ⟨hx1, hfit1, hlen1⟩ := push_box_holds hfit hx hpush
  obtain ⟨b2, hpop, hx2, hlen2, -⟩ := pop_box_spec env2 b1 xs v old hx1 hfit1.1
  refine ⟨b2, ?_, hx2, hx2.1⟩
  rw [hpop]
  simp [hre]

/-- Witness of C3: pushing 3 onto the full box `[1, 2]`, then popping. -/
theorem push_pop_witness :
    Fits ({ data := some [1, 2], len := 2, capacity := 2 } : box_t Nat) ∧
    Holds ({ data := some [1, 2], len := 2, capacity := 2 } : box_t Nat) [1, 2] ∧
    push_box (⟨true, true, fun _ => 9⟩ : Env Nat)
      (some { data := some [1, 2], len := 2, capacity := 2 }) 3 =
      some (SUCCESS, some { data := some [1, 2, 3, 9], len := 3, capacity := 4 }) ∧
    ∃ b2, pop_box (⟨true, true, fun _ => 9⟩ : Env Nat)
        (some { data := some [1, 2, 3, 9], len := 3, capacity := 4 }) (some 0) =
        some (SUCCESS, some b2, some 3) ∧ Holds b2 [1, 2] ∧ b2.len = [1, 2].length :=
  have hf : Fits ({ data := some [1, 2], len := 2, capacity := 2 } : box_t Nat) := by
    simp [Fits]
  have hx : Holds ({ data := some [1, 2], len := 2, capacity := 2 } : box_t Nat) [1, 2] :=
    ⟨rfl, rfl⟩
  have hp : push_box (⟨true, true, fun _ => 9⟩ : Env Nat)
      (some { data := some [1, 2], len := 2, capacity := 2 }) 3 =
      some (SUCCESS, some { data := some [1, 2, 3, 9], len := 3, capacity := 4 }) := by decide
  ⟨hf, hx, hp, push_pop ⟨true, true, fun _ => 9⟩ ⟨true, true, fun _ => 9⟩ _ _ [1, 2] 3 0 hf hx hp rfl⟩


/-- C3 as stated fails: on the box made by `cat` of two new boxes (`len = 0`,
`capacity = 2`), `push(7)` returns `SUCCESS` and the following `pop`, whose
shrinking `realloc` fails, returns `REALLOC_ERROR` (it still yields 7). -/
theorem push_pop_realloc_error :
    cat_box (⟨true, true, fun _ => 0⟩ : Env Nat) (create_box true none).2 (create_box true none).2 =
      some (SUCCESS, some { data := some [0, 0], len := 0, capacity := 2 },
        some { data := none, len := 0, capacity := 1 }) ∧
    Fits ({ data := some [0, 0], len := 0, capacity := 2 } : box_t Nat) ∧
    ({ data := some [0, 0], len := 0, capacity := 2 } : box_t Nat).len ≤
      ({ data := some [0, 0], len := 0, capacity := 2 } : box_t Nat).capacity ∧
    Holds ({ data := some [0, 0], len := 0, capacity := 2 } : box_t Nat) [] ∧
    push_box (⟨true, true, fun _ => 0⟩ : Env Nat)
      (some { data := some [0, 0], len := 0, capacity := 2 }) 7 =
      some (SUCCESS, some { data := some [7, 0], len := 1, capacity := 2 }) ∧
    pop_box (⟨true, false, fun _ => 0⟩ : Env Nat)
      (some { data := some [7, 0], len := 1, capacity := 2 }) (some 0) =
      some (REALLOC_ERROR, some { data := some [0, 0], len := 0, capacity := 1 }, some 7) := by
  refine ⟨by decide, by simp [Fits], by decide, ⟨rfl, rfl⟩, by decide, by decide⟩

/-- The sequence `push(a); push(c); pop; pop` yields `c` and then `a`, and
the box holds again what it held. -/
theorem push_push_pop_pop [Zero T] (e1 e2 e3 e4 : Env T) (b b1 b2 : box_t T) (xs : List T)
    (a c old : T) (hfit : Fits b) (hx : Holds b xs)
    (hp1 : push_box e1 (some b) a = some (SUCCESS, some b1))
    (hp2 : push_box e2 (some b1) c = some (SUCCESS, some b2))
    (h3 : e3.realloc_ok = true) (h4 : e4.realloc_ok = true) :
    ∃ b3 b4, pop_box e3 (some b2) (some old) = some (SUCCESS, some b3, some c) ∧
      pop_box e4 (some b3) (some c) = some (SUCCESS, some b4, some a) ∧ Holds b4 xs := by
  obtain ⟨hx1, hfit1, -⟩ := push_box_holds hfit hx hp1
  obtain ⟨hx2, hfit2, -⟩ := push_box_holds hfit1 hx1 hp2
  obtain ⟨b3, hpop3, hx3, hlen3, -⟩ := pop_box_spec e3 b2 (xs ++ [a]) c old hx2 hfit2.1
  have hb3 : b3.len < 2 ^ 32 := by have := hfit2.1; omega
  obtain ⟨b4, hpop4, hx4, -, -⟩ := pop_box_spec e4 b3 xs a c hx3 hb3
  refine ⟨b3, b4, ?_, ?_, hx4⟩
  · rw [hpop3]; simp [h3]
  · rw [hpop4]; simp [h4]

/-! ## C4: ordered removal -/

/-- C4 (amended).  Ordered removal: for every box that holds `xs` with
`len < 2 ^ 31`, in a block of more than `len` slots, and every index `i < len`,
`remove(i)` with its reallocation succeeding returns `SUCCESS` and leaves the box
holding `xs` without its `i`-th element, the others in their order, and `len` one
less; every slot the call reads or writes lies inside the block. -/
theorem remove_erases [Zero T] (env : Env T) (b : box_t T) (xs : List T) (i : Nat)
    (hx : Holds b xs) (hi : i < b.len) (hlen : b.len < 2 ^ 31)
    (hroom : b.len < (b.data.getD []).length) (hre : env.realloc_ok = true) :
    ∃ b', remove_box env (some b) i = some (SUCCESS, some b') ∧
      Holds b' (xs.eraseIdx i) ∧ b'.len = b.len - 1 ∧
      ∀ s ∈ remove_box_slots b i, 0 ≤ s ∧ s < ((b.data.getD []).length : Int) := by
  obtain ⟨b', h1, h2, h3, -⟩ := remove_box_spec env b xs i hx hi hlen
  refine ⟨b', ?_, h2, h3, remove_box_slots_below b i _ hroom hlen⟩
  rw [h1]
  simp [hre]

/-- Witness of C4: `[10, 20, 30, 40]` in a block of 8 slots, `remove(1)`. -/
theorem remove_erases_witness :
    Holds ({ data := some [10, 20, 30, 40, 0, 0, 0, 0], len := 4, capacity := 8 } : box_t Nat)
      [10, 20, 30, 40] ∧
    ({ data := some [10, 20, 30, 40, 0, 0, 0, 0], len := 4, capacity := 8 } : box_t Nat).len <
      ((({ data := some [10, 20, 30, 40, 0, 0, 0, 0], len := 4, capacity := 8 } :
        box_t Nat).data).getD []).length ∧
    ∃ b', remove_box (⟨true, true, fun _ => 9⟩ : Env Nat)
        (some { data := some [10, 20, 30, 40, 0, 0, 0, 0], len := 4, capacity := 8 }) 1 =
        some (SUCCESS, some b') ∧
      Holds b' ([10, 20, 30, 40].eraseIdx 1) ∧
      b'.len = ({ data := some [10, 20, 30, 40, 0, 0, 0, 0], len := 4, capacity := 8 } :
        box_t Nat).len - 1 ∧
      ∀ s ∈ remove_box_slots
          ({ data := some [10, 20, 30, 40, 0, 0, 0, 0], len := 4, capacity := 8 } : box_t Nat) 1,
        0 ≤ s ∧ s < (((({ data := some [10, 20, 30, 40, 0, 0, 0, 0], len := 4, capacity := 8 } :
          box_t Nat).data).getD []).length : Int) :=
  have hx : Holds ({ data := some [10, 20, 30, 40, 0, 0, 0, 0], len := 4, capacity := 8 } :
      box_t Nat) [10, 20, 30, 40] := ⟨rfl, rfl⟩
  ⟨hx, by decide,
    remove_erases ⟨true, true, fun _ => 9⟩ _ [10, 20, 30, 40] 1 hx (by decide) (by decide)
      (by decide) rfl⟩


/-- C4 as stated fails: the box holds 1 followed by `2 ^ 31 - 1` zeros; `remove(0)`
returns `SUCCESS` but the box does not hold the zeros alone afterwards (the 1 is
still its first element). -/
theorem remove_skips_shift_at_int_min :
    Holds ({ data := some (1 :: List.replicate 2147483647 0), len := 2147483648,
             capacity := 2147483648 } : box_t Nat) (1 :: List.replicate 2147483647 0) ∧
    0 < ({ data := some (1 :: List.replicate 2147483647 0), len := 2147483648,
           capacity := 2147483648 } : box_t Nat).len ∧
    ∃ b', remove_box (⟨true, true, fun _ => 0⟩ : Env Nat)
        (some { data := some (1 :: List.replicate 2147483647 0), len := 2147483648,
                capacity := 2147483648 }) 0 = some (SUCCESS, some b') ∧
      ¬ Holds b' ((1 :: List.replicate 2147483647 0).eraseIdx 0) := by
  have hl : (List.replicate 2147483647 (0 : Nat)).length = 2147483647 := List.length_replicate _ _
  have h0 : (List.replicate 2147483647 (0 : Nat))[0]? = some 0 := by
    rw [List.getElem?_replicate, if_pos (by decide)]
  obtain ⟨buf', h1, h2⟩ := remove_box_int_min ⟨true, true, fun _ => 0⟩
    { data := some (1 :: List.replicate 2147483647 0), len := 2147483648,
      capacity := 2147483648 } _ rfl rfl rfl hl
  refine ⟨⟨?_, ?_⟩, (show 0 < 2147483648 by decide), _, h1, not_holds_int_min _ _ h0 h2⟩
  · show 2147483648 = (1 :: List.replicate 2147483647 0).length
    rw [List.length_cons, hl]
  · show List.take 2147483648 (1 :: List.replicate 2147483647 0) = _
    exact List.take_of_length_le (by rw [List.length_cons, hl])

/-! ## C5: concatenation -/

/-- C5.  Concatenation: for a `dest` that holds `xs` and a different box `src`
that holds `ys`, both with `len ≤ capacity` (as every reachable box), the sum of the
capacities not wrapping and the reallocation succeeding, `cat` returns `SUCCESS`,
leaves `dest` holding `xs ++ ys` with `len = |xs| + |ys|` and
`capacity = dest.capacity + src.capacity`, and leaves `src` as it was. -/
theorem cat_appends (env : Env T) (d s : box_t T) (xs ys : List T)
    (hd : Holds d xs) (hs : Holds s ys) (hdle : d.len ≤ d.capacity) (hsle : s.len ≤ s.capacity)
    (hcap : d.capacity + s.capacity < 2 ^ 32) (hre : env.realloc_ok = true) :
    ∃ d', cat_box env (some d) (some s) = some (SUCCESS, some d', some s) ∧
      Holds d' (xs ++ ys) ∧ d'.len = xs.length + ys.length ∧
      d'.capacity = d.capacity + s.capacity := by
  obtain ⟨d', h1, h2, h3, h4⟩ := cat_box_spec env d s xs ys hd hs (by omega) hcap hre
  exact ⟨d', h1, h2, by rw [h3, hd.1, hs.1], h4⟩

/-- Witness of C5: `dest = [1, 2]`, `src = [3, 4]`. -/
theorem cat_appends_witness :
    Holds ({ data := some [1, 2], len := 2, capacity := 2 } : box_t Nat) [1, 2] ∧
    Holds ({ data := some [3, 4], len := 2, capacity := 2 } : box_t Nat) [3, 4] ∧
    ∃ d', cat_box (⟨true, true, fun _ => 9⟩ : Env Nat)
        (some { data := some [1, 2], len := 2, capacity := 2 })
        (some { data := some [3, 4], len := 2, capacity := 2 }) =
        some (SUCCESS, some d', some { data := some [3, 4], len := 2, capacity := 2 }) ∧
      Holds d' ([1, 2] ++ [3, 4]) ∧ d'.len = [1, 2].length + [3, 4].length ∧
      d'.capacity = ({ data := some [1, 2], len := 2, capacity := 2 } : box_t Nat).capacity +
        ({ data := some [3, 4], len := 2, capacity := 2 } : box_t Nat).capacity :=
  have h1 : Holds ({ data := some [1, 2], len := 2, capacity := 2 } : box_t Nat) [1, 2] :=
    ⟨rfl, rfl⟩
  have h2 : Holds ({ data := some [3, 4], len := 2, capacity := 2 } : box_t Nat) [3, 4] :=
    ⟨rfl, rfl⟩
  ⟨h1, h2, cat_appends ⟨true, true, fun _ => 9⟩ _ _ [1, 2] [3, 4] h1 h2 (by decide) (by decide)
    (by decide) rfl⟩

/-! ## C6: emptiness is reported first -/

/-- C6.  On a box with `len = 0`, `pop`, `get(i)`, `set(i, v)` and `remove(i)`
return `BOX_EMPTY` for every index `i`, and the box (and the caller's item) is
returned as it was. -/
theorem empty_reported_first [Zero T] (env : Env T) (b : box_t T) (i : Nat) (v old : T)
    (h0 : b.len = 0) :
    pop_box env (some b) (some old) = some (BOX_EMPTY, some b, some old) ∧
    get_box env (some b) (some old) i = some (BOX_EMPTY, some b, some old) ∧
    set_box (some b) v i = some (BOX_EMPTY, some b) ∧
    remove_box env (some b) i = some (BOX_EMPTY, some b) := by
  refine ⟨?_, ?_, ?_, ?_⟩
  · simp only [pop_box, h0, if_true]
  · simp only [get_box, h0, if_true]
  · simp only [set_box, h0, if_true]
  · simp only [remove_box, h0, if_true]

/-- Witness of C6: the box `create_box_T` makes, index 3. -/
theorem empty_reported_first_witness :
    ({ data := none, len := 0, capacity := 1 } : box_t Nat).len = 0 ∧
    pop_box (⟨true, true, fun _ => 9⟩ : Env Nat) (some { data := none, len := 0, capacity := 1 })
      (some 5) = some (BOX_EMPTY, some { data := none, len := 0, capacity := 1 }, some 5) ∧
    get_box (⟨true, true, fun _ => 9⟩ : Env Nat) (some { data := none, len := 0, capacity := 1 })
      (some 5) 3 = some (BOX_EMPTY, some { data := none, len := 0, capacity := 1 }, some 5) ∧
    set_box (some ({ data := none, len := 0, capacity := 1 } : box_t Nat)) 8 3 =
      some (BOX_EMPTY, some { data := none, len := 0, capacity := 1 }) ∧
    remove_box (⟨true, true, fun _ => 9⟩ : Env Nat)
      (some { data := none, len := 0, capacity := 1 }) 3 =
      some (BOX_EMPTY, some { data := none, len := 0, capacity := 1 }) :=
  ⟨rfl, empty_reported_first ⟨true, true, fun _ => 9⟩ { data := none, len := 0, capacity := 1 }
    3 8 5 rfl⟩


/-! ## C7: the bounds check -/

/-- C7.  On a box with `len ≥ 1` and for every index `i`: each of `get(i)`,
`set(i, v)` and `remove(i)` returns `OUT_OF_BOUNDS` if and only if `i ≥ len`; when
`i ≥ len` the box (and the caller's item) is returned as it was; and when the box
holds `xs` and `i < len`, `get(i)` returns `SUCCESS` and `xs[i]`. -/
theorem bounds_check [Zero T] (env : Env T) (b : box_t T) (i : Nat) (v old : T)
    (h1 : 1 ≤ b.len) :
    ((∃ r, get_box env (some b) (some old) i = some (OUT_OF_BOUNDS, r)) ↔ b.len ≤ i) ∧
    ((∃ r, set_box (some b) v i = some (OUT_OF_BOUNDS, r)) ↔ b.len ≤ i) ∧
    ((∃ r, remove_box env (some b) i = some (OUT_OF_BOUNDS, r)) ↔ b.len ≤ i) ∧
    (b.len ≤ i →
      get_box env (some b) (some old) i = some (OUT_OF_BOUNDS, some b, some old) ∧
      set_box (some b) v i = some (OUT_OF_BOUNDS, some b) ∧
      remove_box env (some b) i = some (OUT_OF_BOUNDS, some b)) ∧
    (∀ xs : List T, Holds b xs → ∀ hi : i < xs.length,
      get_box env (some b) (some old) i = some (SUCCESS, some b, some xs[i])) := by
  have hz : b.len ≠ 0 := by omega
  have hout : b.len ≤ i →
      get_box env (some b) (some old) i = some (OUT_OF_BOUNDS, some b, some old) ∧
      set_box (some b) v i = some (OUT_OF_BOUNDS, some b) ∧
      remove_box env (some b) i = some (OUT_OF_BOUNDS, some b) := by
    intro hi
    have hgt : i > b.len - 1 := by omega
    refine ⟨?_, ?_, ?_⟩
    · simp only [get_box, hz, if_false, hgt, if_true]
    · simp only [set_box, hz, if_false, hgt, if_true]
    · simp only [remove_box, hz, if_false, hgt, if_true]
  refine ⟨⟨?_, fun hi => ⟨_, (hout hi).1⟩⟩, ⟨?_, fun hi => ⟨_, (hout hi).2.1⟩⟩,
    ⟨?_, fun hi => ⟨_, (hout hi).2.2⟩⟩, hout,
    fun xs hx hi => get_box_of_holds env b xs old i hx hi⟩
  · rintro ⟨r, hr⟩
    by_contra hi
    have hgt : ¬ i > b.len - 1 := by omega
    simp only [get_box, hz, hgt, if_false] at hr
    split at hr <;> simp at hr
  · rintro ⟨r, hr⟩
    by_contra hi
    have hgt : ¬ i > b.len - 1 := by omega
    simp only [set_box, hz, hgt, if_false] at hr
    split at hr
    · simp at hr
    · split at hr <;> simp at hr
  · rintro ⟨r, hr⟩
    have := remove_box_status hr hz
    omega

/-- Witness of C7: the box `[10, 20]`, index 2. -/
theorem bounds_check_witness :
    1 ≤ ({ data := some [10, 20], len := 2, capacity := 2 } : box_t Nat).len ∧
    (((∃ r, get_box (⟨true, true, fun _ => 9⟩ : Env Nat)
        (some { data := some [10, 20], len := 2, capacity := 2 }) (some 5) 2 =
        some (OUT_OF_BOUNDS, r)) ↔
      ({ data := some [10, 20], len := 2, capacity := 2 } : box_t Nat).len ≤ 2) ∧
    ((∃ r, set_box (some ({ data := some [10, 20], len := 2, capacity := 2 } : box_t Nat)) 8 2 =
        some (OUT_OF_BOUNDS, r)) ↔
      ({ data := some [10, 20], len := 2, capacity := 2 } : box_t Nat).len ≤ 2) ∧
    ((∃ r, remove_box (⟨true, true, fun _ => 9⟩ : Env Nat)
        (some { data := some [10, 20], len := 2, capacity := 2 }) 2 =
        some (OUT_OF_BOUNDS, r)) ↔
      ({ data := some [10, 20], len := 2, capacity := 2 } : box_t Nat).len ≤ 2) ∧
    (({ data := some [10, 20], len := 2, capacity := 2 } : box_t Nat).len ≤ 2 →
      get_box (⟨true, true, fun _ => 9⟩ : Env Nat)
        (some { data := some [10, 20], len := 2, capacity := 2 }) (some 5) 2 =
        some (OUT_OF_BOUNDS, some { data := some [10, 20], len := 2, capacity := 2 }, some 5) ∧
      set_box (some ({ data := some [10, 20], len := 2, capacity := 2 } : box_t Nat)) 8 2 =
        some (OUT_OF_BOUNDS, some { data := some [10, 20], len := 2, capacity := 2 }) ∧
      remove_box (⟨true, true, fun _ => 9⟩ : Env Nat)
        (some { data := some [10, 20], len := 2, capacity := 2 }) 2 =
        some (OUT_OF_BOUNDS, some { data := some [10, 20], len := 2, capacity := 2 })) ∧
    (∀ xs : List Nat, Holds { data := some [10, 20], len := 2, capacity := 2 } xs →
      ∀ hi : 2 < xs.length,
      get_box (⟨true, true, fun _ => 9⟩ : Env Nat)
        (some { data := some [10, 20], len := 2, capacity := 2 }) (some 5) 2 =
        some (SUCCESS, some { data := some [10, 20], len := 2, capacity := 2 }, some xs[2]))) :=
  ⟨by decide, bounds_check ⟨true, true, fun _ => 9⟩
    { data := some [10, 20], len := 2, capacity := 2 } 2 8 5 (by decide)⟩


/-! ## C8: index equal to `len` -/

/-- C8 (amended).  For every box with `len ≥ 1`, `get` and `set` with the index
equal to `len` return `OUT_OF_BOUNDS` and leave the box as it was. -/
theorem get_set_at_len [Zero T] (env : Env T) (b : box_t T) (v old : T) (h1 : 1 ≤ b.len) :
    get_box env (some b) (some old) b.len = some (OUT_OF_BOUNDS, some b, some old) ∧
    set_box (some b) v b.len = some (OUT_OF_BOUNDS, some b) := by
  have hz : b.len ≠ 0 := by omega
  have hgt : b.len > b.len - 1 := by omega
  constructor
  · simp only [get_box, hz, if_false, hgt, if_true]
  · simp only [set_box, hz, if_false, hgt, if_true]

/-- Witness of C8: the box `[10, 20]`. -/
theorem get_set_at_len_witness :
    1 ≤ ({ data := some [10, 20], len := 2, capacity := 2 } : box_t Nat).len ∧
    get_box (⟨true, true, fun _ => 9⟩ : Env Nat)
      (some { data := some [10, 20], len := 2, capacity := 2 }) (some 5)
      ({ data := some [10, 20], len := 2, capacity := 2 } : box_t Nat).len =
      some (OUT_OF_BOUNDS, some { data := some [10, 20], len := 2, capacity := 2 }, some 5) ∧
    set_box (some ({ data := some [10, 20], len := 2, capacity := 2 } : box_t Nat)) 8
      ({ data := some [10, 20], len := 2, capacity := 2 } : box_t Nat).len =
      some (OUT_OF_BOUNDS, some { data := some [10, 20], len := 2, capacity := 2 }) :=
  ⟨by decide, get_set_at_len ⟨true, true, fun _ => 9⟩
    { data := some [10, 20], len := 2, capacity := 2 } 8 5 (by decide)⟩

/-- C8 as stated fails: on the empty box `create_box_T` makes, `get` and `set`
with index `len = 0` return `BOX_EMPTY`, not `OUT_OF_BOUNDS`. -/
theorem get_set_at_len_empty :
    (create_box true (none : Option (box_t Nat))) =
      (SUCCESS, some { data := none, len := 0, capacity := 1 }) ∧
    get_box (⟨true, true, fun _ => 9⟩ : Env Nat) (some { data := none, len := 0, capacity := 1 })
      (some 5) ({ data := none, len := 0, capacity := 1 } : box_t Nat).len =
      some (BOX_EMPTY, some { data := none, len := 0, capacity := 1 }, some 5) ∧
    set_box (some ({ data := none, len := 0, capacity := 1 } : box_t Nat)) 8
      ({ data := none, len := 0, capacity := 1 } : box_t Nat).len =
      some (BOX_EMPTY, some { data := none, len := 0, capacity := 1 }) := by
  refine ⟨rfl, rfl, rfl⟩

/-! ## C9: set overwrites one slot -/

/-- C9.  For every box that holds `xs` and every `i < len`: `set(i, v)` returns
`SUCCESS`; afterwards `get(i)` returns `v`, `get(j)` for `j < len`, `j ≠ i` returns
`xs[j]` as it did before, `len` and `capacity` are unchanged, and the box holds
`xs` with the `i`-th element replaced by `v`. -/
theorem set_overwrites_one_slot (env : Env T) (b : box_t T) (xs : List T) (i : Nat) (v old : T)
    (hx : Holds b xs) (hi : i < b.len) :
    ∃ b', set_box (some b) v i = some (SUCCESS, some b') ∧
      get_box env (some b') (some old) i = some (SUCCESS, some b', some v) ∧
      (∀ j (hj : j < xs.length), j ≠ i →
        get_box env (some b) (some old) j = some (SUCCESS, some b, some xs[j]) ∧
        get_box env (some b') (some old) j = some (SUCCESS, some b', some xs[j])) ∧
      b'.len = b.len ∧ b'.capacity = b.capacity ∧ Holds b' (xs.set i v) := by
  obtain ⟨buf, hd, hset, hx'⟩ := set_box_spec b xs i v hx hi
  have hlen := hx.1
  refine ⟨_, hset, ?_, ?_, rfl, rfl, hx'⟩
  · have h := get_box_of_holds env _ (xs.set i v) old i hx' (by simp only [List.length_set]; omega)
    simpa using h
  · intro j hj hji
    refine ⟨get_box_of_holds env b xs old j hx hj, ?_⟩
    have h := get_box_of_holds env _ (xs.set i v) old j hx' (by simp only [List.length_set]; omega)
    rw [h]
    simp [List.getElem_set, Ne.symm hji]

/-- Witness of C9: the box `[10, 20, 30]`, `set(1, 7)`. -/
theorem set_overwrites_one_slot_witness :
    Holds ({ data := some [10, 20, 30], len := 3, capacity := 4 } : box_t Nat) [10, 20, 30] ∧
    1 < ({ data := some [10, 20, 30], len := 3, capacity := 4 } : box_t Nat).len ∧
    ∃ b', set_box (some ({ data := some [10, 20, 30], len := 3, capacity := 4 } : box_t Nat)) 7 1 =
        some (SUCCESS, some b') ∧
      get_box (⟨true, true, fun _ => 9⟩ : Env Nat) (some b') (some 5) 1 =
        some (SUCCESS, some b', some 7) ∧
      (∀ j (hj : j < [10, 20, 30].length), j ≠ 1 →
        get_box (⟨true, true, fun _ => 9⟩ : Env Nat)
          (some { data := some [10, 20, 30], len := 3, capacity := 4 }) (some 5) j =
          some (SUCCESS, some { data := some [10, 20, 30], len := 3, capacity := 4 },
            some [10, 20, 30][j]) ∧
        get_box (⟨true, true, fun _ => 9⟩ : Env Nat) (some b') (some 5) j =
          some (SUCCESS, some b', some [10, 20, 30][j])) ∧
      b'.len = ({ data := some [10, 20, 30], len := 3, capacity := 4 } : box_t Nat).len ∧
      b'.capacity = ({ data := some [10, 20, 30], len := 3, capacity := 4 } : box_t Nat).capacity ∧
      Holds b' ([10, 20, 30].set 1 7) :=
  have hx : Holds ({ data := some [10, 20, 30], len := 3, capacity := 4 } : box_t Nat)
      [10, 20, 30] := ⟨rfl, rfl⟩
  ⟨hx, by decide, set_overwrites_one_slot ⟨true, true, fun _ => 9⟩ _ [10, 20, 30] 1 7 5 hx
    (by decide)⟩


/-! ## C10: export -/

/-- C10 (amended).  For every box that holds `xs`, when the `calloc` of the copy
succeeds: `get_box_T_data` into an unset destination returns `SUCCESS` and the
sequence `xs`, of exactly `len` elements, whose `i`-th element is what `get(i)`
returns for every `i < len`, and the box is returned as it was; into a populated
destination (whatever `calloc` would answer) it returns `DATA_NOT_EMPTY` and
leaves destination and box as they were. -/
theorem export_round_trip [Zero T] (env e : Env T) (b : box_t T) (xs : List T) (old : T)
    (hx : Holds b xs) (hc : env.calloc_ok = true) :
    get_box_data env (some b) none = some (SUCCESS, some b, some xs) ∧
    xs.length = b.len ∧
    (∀ i (hi : i < xs.length),
      get_box e (some b) (some old) i = some (SUCCESS, some b, some xs[i])) ∧
    (∀ d : List T, get_box_data env (some b) (some d) = some (DATA_NOT_EMPTY, some b, some d)) := by
  refine ⟨?_, hx.1.symm, fun i hi => get_box_of_holds e b xs old i hx hi, fun d => rfl⟩
  by_cases hz : b.len = 0
  · have hxs : xs = [] := by
      have := hx.1
      rw [hz] at this
      exact List.length_eq_zero.mp this.symm
    simp [get_box_data, memcpy, hz, calloc, hc, hxs]
  · have hne : xs ≠ [] := by
      intro h
      have := hx.1
      rw [h] at this
      exact hz this
    obtain ⟨buf, hd, hle, htake⟩ := holds_data hx hne
    simp only [get_box_data, memcpy, hz, if_false, calloc, hc, if_true, hd, List.length_replicate,
      Nat.zero_add, Nat.le_refl, List.take_zero, List.nil_append, map_load_range _ _ _ hle, htake,
      List.drop_of_length_le (Nat.le_of_eq (List.length_replicate _ _)), List.append_nil]

/-- Witness of C10: the box `[10, 20, 30]` with one spare slot. -/
theorem export_round_trip_witness :
    Holds ({ data := some [10, 20, 30, 0], len := 3, capacity := 4 } : box_t Nat) [10, 20, 30] ∧
    get_box_data (⟨true, true, fun _ => 9⟩ : Env Nat)
      (some { data := some [10, 20, 30, 0], len := 3, capacity := 4 }) none =
      some (SUCCESS, some { data := some [10, 20, 30, 0], len := 3, capacity := 4 },
        some [10, 20, 30]) ∧
    [10, 20, 30].length = ({ data := some [10, 20, 30, 0], len := 3, capacity := 4 } : box_t Nat).len ∧
    (∀ i (hi : i < [10, 20, 30].length),
      get_box (⟨true, true, fun _ => 9⟩ : Env Nat)
        (some { data := some [10, 20, 30, 0], len := 3, capacity := 4 }) (some 5) i =
        some (SUCCESS, some { data := some [10, 20, 30, 0], len := 3, capacity := 4 },
          some [10, 20, 30][i])) ∧
    (∀ d : List Nat, get_box_data (⟨true, true, fun _ => 9⟩ : Env Nat)
      (some { data := some [10, 20, 30, 0], len := 3, capacity := 4 }) (some d) =
      some (DATA_NOT_EMPTY, some { data := some [10, 20, 30, 0], len := 3, capacity := 4 },
        some d)) :=
  have hx : Holds ({ data := some [10, 20, 30, 0], len := 3, capacity := 4 } : box_t Nat)
      [10, 20, 30] := ⟨rfl, rfl⟩
  ⟨hx, export_round_trip ⟨true, true, fun _ => 9⟩ ⟨true, true, fun _ => 9⟩ _ [10, 20, 30] 5 hx rfl⟩

/-- C10 as stated fails: when `calloc` returns `NULL` for the box `[7]`, the
unchecked `memcpy` writes through the null pointer and no status is returned. -/
theorem export_unchecked_calloc :
    Holds ({ data := some [7], len := 1, capacity := 1 } : box_t Nat) [7] ∧
    get_box_data (⟨false, true, fun _ => 9⟩ : Env Nat)
      (some { data := some [7], len := 1, capacity := 1 }) none = none := by
  exact ⟨⟨rfl, rfl⟩, rfl⟩

/-! ## Bounds on the float growth -/

/-- What `drop_bits` computes, for enough fuel. -/
theorem drop_bits_spec (fuel : Nat) : ∀ n : Nat, n < 2 ^ (24 + fuel) →
    (n < 2 ^ 24 ∧ drop_bits fuel n = 0) ∨
    (2 ^ 24 ≤ n ∧ 1 ≤ drop_bits fuel n ∧ 2 ^ (23 + drop_bits fuel n) ≤ n ∧
      n < 2 ^ (24 + drop_bits fuel n)) := by
  induction fuel with
  | zero =>
    intro n hn
    left
    exact ⟨by simpa using hn, rfl⟩
  | succ fuel ih =>
    intro n hn
    by_cases h : n < 2 ^ 24
    · left
      exact ⟨h, by rw [drop_bits, if_pos h]⟩
    · right
      have hn2 : n / 2 < 2 ^ (24 + fuel) := by
        have : 2 ^ (24 + (fuel + 1)) = 2 * 2 ^ (24 + fuel) := by
          rw [← Nat.add_assoc, Nat.pow_succ, Nat.mul_comm]
        omega
      have hd : drop_bits (fuel + 1) n = drop_bits fuel (n / 2) + 1 := by
        rw [drop_bits, if_neg h]
      rw [hd]
      rcases ih (n / 2) hn2 with ⟨h1, h2⟩ | ⟨h1, h2, h3, h4⟩
      · rw [h2]
        refine ⟨by omega, by omega, ?_, ?_⟩
        · have : 2 ^ (23 + (0 + 1)) = 2 ^ 24 := rfl
          omega
        · have : 2 ^ (24 + (0 + 1)) = 2 * 2 ^ 24 := rfl
          omega
      · refine ⟨by omega, by omega, ?_, ?_⟩
        · have : 2 ^ (23 + (drop_bits fuel (n / 2) + 1)) = 2 * 2 ^ (23 + drop_bits fuel (n / 2)) := by
            rw [← Nat.add_assoc, Nat.pow_succ, Nat.mul_comm]
          omega
        · have : 2 ^ (24 + (drop_bits fuel (n / 2) + 1)) = 2 * 2 ^ (24 + drop_bits fuel (n / 2)) := by
            rw [← Nat.add_assoc, Nat.pow_succ, Nat.mul_comm]
          omega

/-- Rounding to binary32 moves a number by at most one part in `2 ^ 24`. -/
theorem f32_round_bounds (n : Nat) :
    n - n / 2 ^ 24 ≤ f32_round n ∧ f32_round n ≤ n + n / 2 ^ 24 := by
  unfold f32_round
  by_cases h : n < 2 ^ 24
  · rw [if_pos h]
    omega
  · rw [if_neg h]
    have hlt : n < 2 ^ (24 + n) := by
      calc n < 2 ^ n := Nat.lt_two_pow n
        _ ≤ 2 ^ (24 + n) := Nat.pow_le_pow_right (by decide) (by omega)
    rcases drop_bits_spec n n hlt with ⟨h1, -⟩ | ⟨-, hk, hlo, -⟩
    · exact absurd h1 h
    · simp only
      generalize drop_bits n n = k at hk hlo
      obtain ⟨j, rfl⟩ : ∃ j, k = j + 1 := ⟨k - 1, by omega⟩
      simp only [Nat.add_sub_cancel]
      have hpk : 2 ^ (j + 1) = 2 * 2 ^ j := by rw [Nat.pow_succ, Nat.mul_comm]
      have hp23 : 2 ^ (23 + (j + 1)) = 2 ^ 24 * 2 ^ j := by
        rw [show 23 + (j + 1) = 24 + j by omega, Nat.pow_add]
      have hpos : 0 < 2 ^ j := Nat.pow_pos (by decide)
      have hdm := Nat.div_add_mod n (2 ^ (j + 1))
      have hml := Nat.mod_lt n (show 0 < 2 ^ (j + 1) by rw [hpk]; omega)
      have hmul : (n / 2 ^ (j + 1) + 1) * 2 ^ (j + 1) =
          2 ^ (j + 1) * (n / 2 ^ (j + 1)) + 2 ^ (j + 1) := by ring
      have hmul' : n / 2 ^ (j + 1) * 2 ^ (j + 1) = 2 ^ (j + 1) * (n / 2 ^ (j + 1)) := by ring
      rw [hmul, hmul']
      generalize 2 ^ (j + 1) * (n / 2 ^ (j + 1)) = X at hdm
      generalize n % 2 ^ (j + 1) = r at hdm hml
      rw [hpk] at hml ⊢
      rw [hp23] at hlo
      generalize 2 ^ j = a at hlo hml hpos
      have ha : a ≤ n / 2 ^ 24 := by
        rw [Nat.le_div_iff_mul_le (by decide)]
        rw [Nat.mul_comm]; exact hlo
      split <;> rename_i hc
      · have hr : a ≤ r := by rcases hc with hc | ⟨hc, -⟩ <;> omega
        omega
      · have hr : r ≤ a := by
          by_contra hcon
          exact hc (Or.inl (by omega))
        omega

/-- The grown capacity is at most twice the old one. -/
theorem new_capacity_le (c : Nat) : new_capacity c ≤ 2 * c := by
  unfold new_capacity
  split
  · unfold grow_f32
    have h1 := (f32_round_bounds c).2
    have h2 := (f32_round_bounds (3 * f32_round c)).2
    have h3 : f32_round (3 * f32_round c) / 2 % 2 ^ 32 ≤ f32_round (3 * f32_round c) / 2 :=
      Nat.mod_le _ _
    omega
  · have := Nat.mod_le (c * 2) (2 ^ 32)
    omega

/-! ## What the calls that return have done -/

/-- A call of `reduce_box_T` that returns has found a block with the slot it zeroes. -/
theorem reduce_box_some [Zero T] {env : Env T} {b b' : box_t T} {st : box_status}
    (h : reduce_box env b = some (st, b')) :
    ∃ buf, b.data = some buf ∧ (b.len + 2 ^ 32 - 1) % 2 ^ 32 < buf.length := by
  unfold reduce_box at h
  split at h
  · simp at h
  · rename_i buf hd
    split at h
    · simp at h
    · rename_i buf1 hst
      exact ⟨buf, hd, (store_eq_some hst).1⟩

/-- What a call of `reduce_box_T` that returns has done, for `1 ≤ len < 2 ^ 32`. -/
theorem reduce_box_returned [Zero T] {env : Env T} {b b' : box_t T} {st : box_status}
    (h : reduce_box env b = some (st, b')) (h1 : 1 ≤ b.len) (h3 : b.len < 2 ^ 32) :
    ∃ buf buf', b.data = some buf ∧ b.len ≤ buf.length ∧
      st = (if b.len - 1 < b.capacity / 2 ∧ env.realloc_ok = false then REALLOC_ERROR
            else SUCCESS) ∧
      b' = { data := some buf', len := b.len - 1,
             capacity := if b.len - 1 < b.capacity / 2 then b.capacity / 2 else b.capacity } ∧
      buf'.take (b.len - 1) = buf.take (b.len - 1) ∧ buf'[b.len - 1]? = some 0 := by
  obtain ⟨buf, hd, hlt⟩ := reduce_box_some h
  have hle : b.len ≤ buf.length := by omega
  obtain ⟨buf', hred, htk, hz⟩ := reduce_box_spec env b buf hd h1 hle h3
  rw [hred] at h
  simp only [Option.some.injEq, Prod.mk.injEq] at h
  exact ⟨buf, buf', hd, hle, h.1.symm, h.2.symm, htk, hz⟩

/-- The two ways `pop_box_T` returns on a non-null box with a non-null item. -/
theorem pop_box_returned [Zero T] {env : Env T} {b b' : box_t T} {old : T} {it : Option T}
    {st : box_status} (h : pop_box env (some b) (some old) = some (st, some b', it)) :
    (b.len = 0 ∧ st = BOX_EMPTY ∧ b' = b ∧ it = some old) ∨
    (b.len ≠ 0 ∧ ∃ buf, b.data = some buf ∧ reduce_box env b = some (st, b') ∧
      it = some (load env.junk buf (b.len - 1))) := by
  simp only [pop_box] at h
  by_cases hz : b.len = 0
  · left
    simp only [hz, if_true, Option.some.injEq, Prod.mk.injEq] at h
    exact ⟨hz, h.1.symm, h.2.1.symm, h.2.2.symm⟩
  · right
    simp only [hz, if_false] at h
    split at h
    · simp at h
    · rename_i buf hd
      split at h
      · simp at h
      · rename_i st0 b0 hred
        simp only [Option.some.injEq, Prod.mk.injEq] at h
        obtain ⟨rfl, rfl, rfl⟩ := h
        exact ⟨hz, buf, hd, hred, rfl⟩

/-- The three ways `remove_box_T` returns on a non-null box. -/
theorem remove_box_returned [Zero T] {env : Env T} {b b' : box_t T} {i : Nat}
    {st : box_status} (h : remove_box env (some b) i = some (st, some b')) :
    (b.len = 0 ∧ st = BOX_EMPTY ∧ b' = b) ∨
    (b.len ≠ 0 ∧ i > b.len - 1 ∧ st = OUT_OF_BOUNDS ∧ b' = b) ∨
    (b.len ≠ 0 ∧ ¬ i > b.len - 1 ∧ ∃ buf buf', b.data = some buf ∧
      shift_loop env.junk (to_int b.len - to_int i).toNat (to_int i) buf = some buf' ∧
      reduce_box env { b with data := some buf' } = some (st, b')) := by
  simp only [remove_box] at h
  by_cases hz : b.len = 0
  · left
    simp only [hz, if_true, Option.some.injEq, Prod.mk.injEq] at h
    exact ⟨hz, h.1.symm, h.2.symm⟩
  · right
    simp only [hz, if_false] at h
    by_cases hi : i > b.len - 1
    · left
      simp only [hi, if_true, Option.some.injEq, Prod.mk.injEq] at h
      exact ⟨hz, hi, h.1.symm, h.2.symm⟩
    · right
      simp only [hi, if_false] at h
      split at h
      · simp at h
      · rename_i buf hd
        split at h
        · simp at h
        · rename_i buf' hloop
          split at h
          · simp at h
          · rename_i st0 b0 hred
            simp only [Option.some.injEq, Prod.mk.injEq] at h
            obtain ⟨rfl, rfl⟩ := h
            exact ⟨hz, hi, buf, buf', hd, hloop, hred⟩

/-- The loop of `remove_box_T` does not change the size of the block. -/
theorem shift_loop_length (junk : Nat → T) (n : Nat) :
    ∀ (i : Int) (buf buf' : List T), shift_loop junk n i buf = some buf' →
      buf'.length = buf.length := by
  induction n with
  | zero =>
    intro i buf buf' h
    simp only [shift_loop, Option.some.injEq] at h
    rw [h]
  | succ n ih =>
    intro i buf buf' h
    simp only [shift_loop] at h
    split at h
    · simp at h
    · split at h
      · simp at h
      · rename_i buf1 hst
        obtain ⟨-, rfl⟩ := store_eq_some hst
        rw [ih _ _ _ h, List.length_set]

/-- The block `realloc` leaves behind when it returns `NULL` is the old block or,
after a request for 0 bytes, a block of no slots. -/
theorem realloc_failed_length (buf : List T) (n : Nat) :
    ((realloc_failed (some buf) n).getD []).length ≤ buf.length := by
  simp only [realloc_failed]
  split <;> simp

/-- A failed request for at least one slot leaves the block as it was. -/
theorem realloc_failed_pos (ptr : Option (List T)) (n : Nat) (hn : n ≠ 0) :
    realloc_failed ptr n = ptr := by
  unfold realloc_failed
  cases ptr with
  | none => rfl
  | some buf => simp [hn]

/-- The pointer is null after a failed `realloc` only if it was null before. -/
theorem realloc_failed_eq_none (ptr : Option (List T)) (n : Nat) :
    realloc_failed ptr n = none ↔ ptr = none := by
  cases ptr with
  | none => simp [realloc_failed]
  | some buf =>
    simp only [realloc_failed]
    split <;> simp

/-- The ways `push_box_T` returns on a non-null box without `SUCCESS`: the lazy
`calloc` failed, or the growth `realloc` returned `NULL`, on the block of the box
or on the one-slot block just allocated. -/
theorem push_box_failed [Zero T] {env : Env T} {b b' : box_t T} {v : T} {st : box_status}
    (h : push_box env (some b) v = some (st, some b')) (hne : st ≠ SUCCESS) :
    (st = ALLOC_ERROR ∧ b' = b) ∨
    (st = REALLOC_ERROR ∧ (b.len + 1) % 2 ^ 32 > b.capacity ∧
      ∃ buf, (b.data = some buf ∨ (b.data = none ∧ buf = [0])) ∧
        realloc env.realloc_ok env.junk (some buf) (new_capacity b.capacity) = none ∧
        b' = { b with data := realloc_failed (some buf) (new_capacity b.capacity) }) := by
  unfold push_box at h
  simp only at h
  split at h
  · rename_i hm
    simp only [Option.some.injEq, Prod.mk.injEq] at h
    exact Or.inl ⟨h.1.symm, h.2.symm⟩
  · rename_i buf hm
    split at h
    · rename_i hcond
      split at h
      · rename_i hre
        simp only [Option.some.injEq, Prod.mk.injEq] at h
        right
        refine ⟨h.1.symm, hcond, buf, ?_, hre, h.2.symm⟩
        cases hd : b.data with
        | some buf0 =>
          left
          rw [hd] at hm
          simp only [Option.some.injEq] at hm
          rw [hm]
        | none =>
          right
          rw [hd] at hm
          simp only [calloc] at hm
          split at hm
          · simp only [Option.some.injEq] at hm
            exact ⟨rfl, by rw [← hm]; rfl⟩
          · simp at hm
      · split at h
        · simp at h
        · simp only [Option.some.injEq, Prod.mk.injEq] at h
          exact absurd h.1.symm hne
    · split at h
      · simp at h
      · simp only [Option.some.injEq, Prod.mk.injEq] at h
        exact absurd h.1.symm hne

/-! ## The calls keep the fields in the range of `unsigned int` -/

/-- `push` keeps the fields and the block size in the range of `unsigned int`. -/
theorem push_box_fits [Zero T] {env : Env T} {b b' : box_t T} {v : T} {st : box_status}
    (h : push_box env (some b) v = some (st, some b')) (hfit : Fits b) : Fits b' := by
  by_cases hs : st = SUCCESS
  · subst hs
    obtain ⟨tmp, rfl, -, hlt, -⟩ := push_box_success h hfit.2.2
    refine ⟨Nat.mod_lt _ (by decide), ?_, by simpa using hlt⟩
    simp only
    split
    · exact new_capacity_lt _
    · exact hfit.2.1
  · rcases push_box_failed h hs with ⟨-, rfl⟩ | ⟨-, -, buf, hb, -, rfl⟩
    · exact hfit
    · refine ⟨hfit.1, hfit.2.1, ?_⟩
      have hle := realloc_failed_length buf (new_capacity b.capacity)
      have hbuf : buf.length < 2 ^ 32 := by
        rcases hb with hb | ⟨-, rfl⟩
        · have := hfit.2.2
          rw [hb] at this
          simpa using this
        · simp
      exact Nat.lt_of_le_of_lt hle hbuf

/-- `reduce_box_T` keeps the fields and the block size in the range of `unsigned int`. -/
theorem reduce_box_fits [Zero T] {env : Env T} {b b' : box_t T} {st : box_status}
    (h : reduce_box env b = some (st, b')) (hfit : Fits b) : Fits b' := by
  obtain ⟨hl, hc, hd⟩ := hfit
  unfold reduce_box at h
  split at h
  · simp at h
  · rename_i buf hdat
    rw [hdat] at hd
    simp only [Option.getD_some] at hd
    split at h
    · simp at h
    · rename_i buf1 hst
      obtain ⟨-, rfl⟩ := store_eq_some hst
      simp only at h
      split at h
      · split at h
        · simp only [Option.some.injEq, Prod.mk.injEq] at h
          obtain ⟨-, rfl⟩ := h
          refine ⟨Nat.mod_lt _ (by decide), by simp only; omega, ?_⟩
          have hle := realloc_failed_length
            (buf.set ((b.len + 2 ^ 32 - 1) % 2 ^ 32) (0 : T)) (b.capacity / 2)
          rw [List.length_set] at hle
          exact Nat.lt_of_le_of_lt hle hd
        · rename_i tmp hre
          obtain ⟨-, hlen, -⟩ := realloc_eq_some hre
          simp only [Option.some.injEq, Prod.mk.injEq] at h
          obtain ⟨-, rfl⟩ := h
          exact ⟨Nat.mod_lt _ (by decide), by simp only; omega, by
            simp only [Option.getD_some]; omega⟩
      · simp only [Option.some.injEq, Prod.mk.injEq] at h
        obtain ⟨-, rfl⟩ := h
        exact ⟨Nat.mod_lt _ (by decide), hc, by simpa using hd⟩

/-- `pop` keeps the fields and the block size in the range of `unsigned int`. -/
theorem pop_box_fits [Zero T] {env : Env T} {b b' : box_t T} {old : T} {it : Option T}
    {st : box_status} (h : pop_box env (some b) (some old) = some (st, some b', it))
    (hfit : Fits b) : Fits b' := by
  rcases pop_box_returned h with ⟨-, -, rfl, -⟩ | ⟨-, _, -, hred, -⟩
  · exact hfit
  · exact reduce_box_fits hred hfit

/-- `remove` keeps the fields and the block size in the range of `unsigned int`. -/
theorem remove_box_fits [Zero T] {env : Env T} {b b' : box_t T} {i : Nat}
    {st : box_status} (h : remove_box env (some b) i = some (st, some b'))
    (hfit : Fits b) : Fits b' := by
  rcases remove_box_returned h with ⟨-, -, rfl⟩ | ⟨-, -, -, rfl⟩ |
    ⟨-, -, buf, buf', hd, hloop, hred⟩
  · exact hfit
  · exact hfit
  · apply reduce_box_fits hred
    have hl := shift_loop_length _ _ _ _ _ hloop
    obtain ⟨h1, h2, h3⟩ := hfit
    rw [hd] at h3
    exact ⟨h1, h2, by simpa [hl] using h3⟩

/-- A `set` that returns `SUCCESS` writes one slot of the block. -/
theorem set_box_success {b b' : box_t T} {v : T} {i : Nat}
    (h : set_box (some b) v i = some (SUCCESS, some b')) :
    ∃ buf, b.data = some buf ∧ i < buf.length ∧ b' = { b with data := some (buf.set i v) } := by
  simp only [set_box] at h
  split at h
  · simp at h
  · split at h
    · simp at h
    · split at h
      · simp at h
      · rename_i buf hd
        split at h
        · simp at h
        · rename_i buf' hst
          obtain ⟨hlt, rfl⟩ := store_eq_some hst
          simp only [Option.some.injEq, Prod.mk.injEq, true_and] at h
          exact ⟨buf, hd, hlt, h.symm⟩

/-! ## How the calls change `len` -/

/-- A `push` that returns `SUCCESS` adds one to `len`; any other leaves `len`. -/
theorem push_box_len [Zero T] {env : Env T} {b b' : box_t T} {v : T} {st : box_status}
    (h : push_box env (some b) v = some (st, some b')) (hfit : Fits b) :
    b'.len = if st = SUCCESS then b.len + 1 else b.len := by
  by_cases hs : st = SUCCESS
  · subst hs
    obtain ⟨tmp, rfl, hlt1, hlt, -⟩ := push_box_success h hfit.2.2
    simp only [if_true]
    omega
  · rw [if_neg hs]
    rcases push_box_failed h hs with ⟨-, rfl⟩ | ⟨-, -, _, -, -, rfl⟩ <;> rfl

/-- After `reduce_box_T` returns, with `SUCCESS` or `REALLOC_ERROR`, `len` is one less. -/
theorem reduce_box_len [Zero T] {env : Env T} {b b' : box_t T} {st : box_status}
    (h : reduce_box env b = some (st, b')) (h1 : b.len ≠ 0) (h3 : b.len < 2 ^ 32) :
    b'.len + 1 = b.len ∧ (st = SUCCESS ∨ st = REALLOC_ERROR) := by
  obtain ⟨_, _, -, -, -, rfl, -, -⟩ := reduce_box_returned h (by omega) h3
  exact ⟨by simp only; omega, reduce_box_status h⟩

/-- One call changes `len` as its kind and status say. -/
theorem call_box_len [Zero T] {c : Call T} {b b' : box_t T} {st : box_status}
    (h : call_box c b = some (st, some b')) (hfit : Fits b) :
    Fits b' ∧ b'.len + removals_done [(c.kind, st)] = b.len + pushes_ok [(c.kind, st)] := by
  cases c with
  | push env v =>
    simp only [call_box] at h
    refine ⟨push_box_fits h hfit, ?_⟩
    rw [push_box_len h hfit]
    by_cases hs : st = SUCCESS <;> simp [removals_done, pushes_ok, Call.kind, hs]
  | pop env =>
    simp only [call_box] at h
    split at h
    · simp at h
    · rename_i st0 b0 it hp
      simp only [Option.some.injEq, Prod.mk.injEq] at h
      obtain ⟨rfl, rfl⟩ := h
      refine ⟨pop_box_fits hp hfit, ?_⟩
      rcases pop_box_returned hp with ⟨-, rfl, rfl, -⟩ | ⟨hz, _, -, hred, -⟩
      · simp [removals_done, pushes_ok, Call.kind]
      · obtain ⟨hl, hs⟩ := reduce_box_len hred hz hfit.1
        rcases hs with rfl | rfl <;> simp [removals_done, pushes_ok, Call.kind] <;> omega
  | remove env i =>
    simp only [call_box] at h
    refine ⟨remove_box_fits h hfit, ?_⟩
    rcases remove_box_returned h with ⟨-, rfl, rfl⟩ | ⟨-, -, rfl, rfl⟩ |
      ⟨hz, -, _, _, -, -, hred⟩
    · simp [removals_done, pushes_ok, Call.kind]
    · simp [removals_done, pushes_ok, Call.kind]
    · obtain ⟨hl, hs⟩ := reduce_box_len hred hz hfit.1
      simp only at hl
      rcases hs with rfl | rfl <;> simp [removals_done, pushes_ok, Call.kind] <;> omega

/-- Over a sequence of calls, `len` is the start plus the pushes that returned
`SUCCESS`, minus the pops and removes that returned `SUCCESS` or `REALLOC_ERROR`. -/
theorem run_calls_len [Zero T] (cs : List (Call T)) :
    ∀ (b b' : box_t T) (log : List (call_kind × box_status)),
      Fits b → run_calls b cs = some (b', log) →
      Fits b' ∧ b'.len + removals_done log = b.len + pushes_ok log := by
  induction cs with
  | nil =>
    intro b b' log hfit h
    simp only [run_calls, Option.some.injEq, Prod.mk.injEq] at h
    obtain ⟨rfl, rfl⟩ := h
    exact ⟨hfit, rfl⟩
  | cons c cs ih =>
    intro b b' log hfit h
    rw [run_calls] at h
    split at h
    · rename_i st b1 hc
      split at h
      · simp at h
      · rename_i b2 log2 hr
        simp only [Option.some.injEq, Prod.mk.injEq] at h
        obtain ⟨rfl, rfl⟩ := h
        obtain ⟨hfit1, h1⟩ := call_box_len hc hfit
        obtain ⟨hfit2, h2⟩ := ih b1 b2 log2 hfit1 hr
        refine ⟨hfit2, ?_⟩
        have e1 : removals_done ((c.kind, st) :: log2) =
            removals_done [(c.kind, st)] + removals_done log2 := by
          simp only [removals_done, List.countP_cons, List.countP_nil]; omega
        have e2 : pushes_ok ((c.kind, st) :: log2) =
            pushes_ok [(c.kind, st)] + pushes_ok log2 := by
          simp only [pushes_ok, List.countP_cons, List.countP_nil]; omega
        omega
    · simp at h

/-! ## C11: the length query -/

/-- C11 (amended).  Length query: for every box `a` holding `xs`,
`get_box_T_len` returns `BOX_EMPTY`, leaving the caller's count as it was, if and
only if `xs` is empty, and otherwise returns `SUCCESS` with the count `|xs|`.  For a
box made by `create_box_T` (`seed = none`) or `create_box_T_from` (`seed = some v`)
and then any sequence of `push`, `pop` and `remove` calls, the `len` the query
reads is the number of pushes that returned `SUCCESS`, plus one for the seed,
minus the number of pops and removes that returned `SUCCESS` or `REALLOC_ERROR`:
those are the calls that took an element out. -/
theorem len_query [Zero T] (a : box_t T) (xs : List T) (old : Nat) (hx : Holds a xs)
    (seed : Option T) (hdr_ok data_ok : Bool) (b0 b : box_t T) (cs : List (Call T))
    (log : List (call_kind × box_status))
    (hc : (match seed with
           | none => create_box hdr_ok none
           | some v => create_box_from hdr_ok data_ok none v) = (SUCCESS, some b0))
    (hrun : run_calls b0 cs = some (b, log)) :
    (get_box_len (some a) (some old) = some (BOX_EMPTY, some a, some old) ↔ xs = []) ∧
    (xs ≠ [] → get_box_len (some a) (some old) = some (SUCCESS, some a, some xs.length)) ∧
    b.len + removals_done log = (if seed.isSome then 1 else 0) + pushes_ok log ∧
    get_box_len (some b) (some old) =
      some (if b.len = 0 then (BOX_EMPTY, some b, some old) else (SUCCESS, some b, some b.len)) := by
  have hnil : xs = [] ↔ a.len = 0 := by
    rw [hx.1]
    exact List.length_eq_zero.symm
  refine ⟨?_, ?_, ?_, ?_⟩
  · rw [hnil]
    constructor
    · intro h
      by_contra hz
      simp [get_box_len, hz] at h
    · intro hz
      simp [get_box_len, hz]
  · intro hne
    have hz : a.len ≠ 0 := fun h => hne (hnil.mpr h)
    simp only [get_box_len, hz, if_false]
    rw [hx.1]
  · have hb0 : Fits b0 ∧ b0.len = (if seed.isSome then 1 else 0) := by
      cases seed with
      | none =>
        simp only [create_box] at hc
        split at hc
        · simp only [Prod.mk.injEq, Option.some.injEq, true_and] at hc
          subst hc
          exact ⟨by simp [Fits], rfl⟩
        · simp at hc
      | some v =>
        simp only [create_box_from] at hc
        split at hc
        · split at hc
          · simp at hc
          · simp only [Prod.mk.injEq, Option.some.injEq, true_and] at hc
            subst hc
            exact ⟨by simp [Fits], rfl⟩
        · simp at hc
    obtain ⟨-, h⟩ := run_calls_len cs b0 b log hb0.1 hrun
    rw [hb0.2] at h
    exact h
  · by_cases hz : b.len = 0 <;> simp [get_box_len, hz]

/-- Witness of C11: the box `[1, 2]`, and the trace `push 1; push 2; pop` on a new
box. -/
theorem len_query_witness :
    Holds ({ data := some [1, 2, 0, 0], len := 2, capacity := 4 } : box_t Nat) [1, 2] ∧
    (create_box true (none : Option (box_t Nat))) =
      (SUCCESS, some { data := none, len := 0, capacity := 1 }) ∧
    run_calls ({ data := none, len := 0, capacity := 1 } : box_t Nat)
      [Call.push ⟨true, true, fun _ => 9⟩ 1, Call.push ⟨true, true, fun _ => 9⟩ 2,
       Call.pop ⟨true, true, fun _ => 9⟩] =
      some ({ data := some [1, 0], len := 1, capacity := 2 },
        [(call_kind.push, SUCCESS), (call_kind.push, SUCCESS), (call_kind.pop, SUCCESS)]) ∧
    ((get_box_len (some ({ data := some [1, 2, 0, 0], len := 2, capacity := 4 } : box_t Nat))
        (some 5) = some (BOX_EMPTY, some { data := some [1, 2, 0, 0], len := 2, capacity := 4 },
          some 5) ↔ [1, 2] = []) ∧
     ([1, 2] ≠ [] →
        get_box_len (some ({ data := some [1, 2, 0, 0], len := 2, capacity := 4 } : box_t Nat))
          (some 5) = some (SUCCESS, some { data := some [1, 2, 0, 0], len := 2, capacity := 4 },
            some [1, 2].length)) ∧
     ({ data := some [1, 0], len := 1, capacity := 2 } : box_t Nat).len +
        removals_done [(call_kind.push, SUCCESS), (call_kind.push, SUCCESS),
          (call_kind.pop, SUCCESS)] =
        (if (none : Option Nat).isSome then 1 else 0) +
          pushes_ok [(call_kind.push, SUCCESS), (call_kind.push, SUCCESS),
            (call_kind.pop, SUCCESS)] ∧
     get_box_len (some ({ data := some [1, 0], len := 1, capacity := 2 } : box_t Nat)) (some 5) =
       some (if ({ data := some [1, 0], len := 1, capacity := 2 } : box_t Nat).len = 0
             then (BOX_EMPTY, some { data := some [1, 0], len := 1, capacity := 2 }, some 5)
             else (SUCCESS, some { data := some [1, 0], len := 1, capacity := 2 },
               some ({ data := some [1, 0], len := 1, capacity := 2 } : box_t Nat).len))) :=
  have hx : Holds ({ data := some [1, 2, 0, 0], len := 2, capacity := 4 } : box_t Nat) [1, 2] :=
    ⟨rfl, rfl⟩
  have hc : (create_box true (none : Option (box_t Nat))) =
      (SUCCESS, some { data := none, len := 0, capacity := 1 }) := rfl
  have hr : run_calls ({ data := none, len := 0, capacity := 1 } : box_t Nat)
      [Call.push ⟨true, true, fun _ => 9⟩ 1, Call.push ⟨true, true, fun _ => 9⟩ 2,
       Call.pop ⟨true, true, fun _ => 9⟩] =
      some ({ data := some [1, 0], len := 1, capacity := 2 },
        [(call_kind.push, SUCCESS), (call_kind.push, SUCCESS), (call_kind.pop, SUCCESS)]) := by
    decide
  ⟨hx, hc, hr, len_query _ [1, 2] 5 hx none true true _ _ _ _ hc hr⟩

/-- C11 as stated fails: on a new box, `pop` (returns `BOX_EMPTY`), three pushes,
`pop`, and a `pop` whose shrinking `realloc` fails (returns `REALLOC_ERROR`, the
element is gone all the same).  The box holds 1 element; three pushes succeeded,
three pops were made, one of them returned `SUCCESS`: the count is neither
`3 - 3` nor `3 - 1`. -/
theorem len_query_miscounts :
    (create_box true (none : Option (box_t Nat))) =
      (SUCCESS, some { data := none, len := 0, capacity := 1 }) ∧
    run_calls ({ data := none, len := 0, capacity := 1 } : box_t Nat)
      [Call.pop ⟨true, true, fun _ => 9⟩, Call.push ⟨true, true, fun _ => 9⟩ 1,
       Call.push ⟨true, true, fun _ => 9⟩ 2, Call.push ⟨true, true, fun _ => 9⟩ 3,
       Call.pop ⟨true, true, fun _ => 9⟩, Call.pop ⟨true, false, fun _ => 9⟩] =
      some ({ data := some [1, 0, 0, 9], len := 1, capacity := 2 },
        [(call_kind.pop, BOX_EMPTY), (call_kind.push, SUCCESS), (call_kind.push, SUCCESS),
         (call_kind.push, SUCCESS), (call_kind.pop, SUCCESS), (call_kind.pop, REALLOC_ERROR)]) ∧
    get_box_len (some ({ data := some [1, 0, 0, 9], len := 1, capacity := 2 } : box_t Nat))
      (some 0) = some (SUCCESS, some { data := some [1, 0, 0, 9], len := 1, capacity := 2 },
        some 1) ∧
    pushes_ok [(call_kind.pop, BOX_EMPTY), (call_kind.push, SUCCESS), (call_kind.push, SUCCESS),
      (call_kind.push, SUCCESS), (call_kind.pop, SUCCESS), (call_kind.pop, REALLOC_ERROR)] = 3 ∧
    removals [(call_kind.pop, BOX_EMPTY), (call_kind.push, SUCCESS), (call_kind.push, SUCCESS),
      (call_kind.push, SUCCESS), (call_kind.pop, SUCCESS), (call_kind.pop, REALLOC_ERROR)] = 3 ∧
    removals_ok [(call_kind.pop, BOX_EMPTY), (call_kind.push, SUCCESS), (call_kind.push, SUCCESS),
      (call_kind.push, SUCCESS), (call_kind.pop, SUCCESS), (call_kind.pop, REALLOC_ERROR)] = 1 ∧
    (1 : Nat) ≠ 3 - 3 ∧ (1 : Nat) ≠ 3 - 1 := by
  refine ⟨rfl, by decide, by decide, by decide, by decide, by decide, by decide, by decide⟩

/-! ## C12: the growth rule -/

/-- Up to 5592405 the float product is exact and the growth is the rule of the
comment: twice the capacity up to 32, one and a half times above. -/
theorem new_capacity_exact (c : Nat) (h : c ≤ 5592405) :
    new_capacity c = if c ≤ 32 then 2 * c else c * 3 / 2 := by
  unfold new_capacity
  by_cases hc : c > 32
  · have h1 : f32_round c = c := by
      unfold f32_round
      rw [if_pos (by omega)]
    have h2 : f32_round (3 * c) = 3 * c := by
      unfold f32_round
      rw [if_pos (by omega)]
    rw [if_pos hc, if_neg (by omega)]
    unfold grow_f32
    rw [h1, h2, Nat.mul_comm 3 c]
    exact Nat.mod_eq_of_lt (by omega)
  · rw [if_neg hc, if_pos (by omega)]
    omega

/-- The growth follows the same rule for every capacity below 5592409. -/
theorem new_capacity_rule (c : Nat) (h : c < 5592409) :
    new_capacity c = if c ≤ 32 then 2 * c else c * 3 / 2 := by
  by_cases h5 : c ≤ 5592405
  · exact new_capacity_exact c h5
  · have hc : c = 5592406 ∨ c = 5592407 ∨ c = 5592408 := by omega
    rcases hc with rfl | rfl | rfl <;> decide

/-- At 5592409 the float product is a tie that rounds up. -/
theorem new_capacity_tie : new_capacity 5592409 = 8388614 := by decide

/-- A `push` onto a full box whose growth gives room, the reallocation succeeding. -/
theorem push_box_grow [Zero T] (env : Env T) (b : box_t T) (v : T) (buf : List T)
    (hd : b.data = some buf) (hcond : (b.len + 1) % 2 ^ 32 > b.capacity)
    (hre : env.realloc_ok = true) (hroom : b.len < new_capacity b.capacity) :
    ∃ tmp : List T, push_box env (some b) v =
      some (SUCCESS, some { data := some (tmp.set b.len v), len := (b.len + 1) % 2 ^ 32,
                            capacity := new_capacity b.capacity }) := by
  obtain ⟨tmp, htmp⟩ : ∃ tmp, realloc env.realloc_ok env.junk (some buf)
      (new_capacity b.capacity) = some tmp := by simp [realloc, hre]
  obtain ⟨-, hlen, -⟩ := realloc_eq_some htmp
  have hst : b.len < tmp.length := by omega
  exact ⟨tmp, by simp only [push_box, hd, hcond, if_true, htmp, store, hst]⟩

/-- C12 (amended).  Growth rule: for every box with `1 ≤ capacity`,
`len ≤ capacity` and `capacity < 5592409` (its fields and block size being
`unsigned int` values), a `push` that returned `SUCCESS` changed the capacity if
and only if `len = capacity` before the call, and in that case the new capacity is
`2 * capacity` when `capacity ≤ 32` and `⌊capacity * 3 / 2⌋` when `capacity > 32`. -/
theorem growth_rule [Zero T] (env : Env T) (b b1 : box_t T) (v : T)
    (hfit : Fits b) (h1 : 1 ≤ b.capacity) (hle : b.len ≤ b.capacity)
    (hcap : b.capacity < 5592409)
    (hp : push_box env (some b) v = some (SUCCESS, some b1)) :
    (b1.capacity ≠ b.capacity ↔ b.len = b.capacity) ∧
    (b.len = b.capacity →
      b1.capacity = if b.capacity ≤ 32 then 2 * b.capacity else b.capacity * 3 / 2) := by
  obtain ⟨tmp, rfl, -, -, -⟩ := push_box_success hp hfit.2.2
  have hrule := new_capacity_rule b.capacity hcap
  have hmod : (b.len + 1) % 2 ^ 32 = b.len + 1 := by omega
  simp only [hmod]
  have hne : new_capacity b.capacity ≠ b.capacity := by
    rw [hrule]
    split <;> omega
  constructor
  · constructor
    · intro h
      by_contra hlt
      have : ¬ (b.len + 1 > b.capacity) := by omega
      rw [if_neg this] at h
      exact h rfl
    · intro h
      rw [if_pos (by omega)]
      exact hne
  · intro h
    rw [if_pos (by omega)]
    exact hrule

/-- Witness of C12: pushing 3 onto the full box `[1, 2]` doubles the capacity. -/
theorem growth_rule_witness :
    Fits ({ data := some [1, 2], len := 2, capacity := 2 } : box_t Nat) ∧
    push_box (⟨true, true, fun _ => 9⟩ : Env Nat)
      (some { data := some [1, 2], len := 2, capacity := 2 }) 3 =
      some (SUCCESS, some { data := some [1, 2, 3, 9], len := 3, capacity := 4 }) ∧
    ((({ data := some [1, 2, 3, 9], len := 3, capacity := 4 } : box_t Nat).capacity ≠
        ({ data := some [1, 2], len := 2, capacity := 2 } : box_t Nat).capacity ↔
      ({ data := some [1, 2], len := 2, capacity := 2 } : box_t Nat).len =
        ({ data := some [1, 2], len := 2, capacity := 2 } : box_t Nat).capacity) ∧
     (({ data := some [1, 2], len := 2, capacity := 2 } : box_t Nat).len =
        ({ data := some [1, 2], len := 2, capacity := 2 } : box_t Nat).capacity →
      ({ data := some [1, 2, 3, 9], len := 3, capacity := 4 } : box_t Nat).capacity =
        if ({ data := some [1, 2], len := 2, capacity := 2 } : box_t Nat).capacity ≤ 32
        then 2 * ({ data := some [1, 2], len := 2, capacity := 2 } : box_t Nat).capacity
        else ({ data := some [1, 2], len := 2, capacity := 2 } : box_t Nat).capacity * 3 / 2)) :=
  have hf : Fits ({ data := some [1, 2], len := 2, capacity := 2 } : box_t Nat) := by
    simp [Fits]
  have hp : push_box (⟨true, true, fun _ => 9⟩ : Env Nat)
      (some { data := some [1, 2], len := 2, capacity := 2 }) 3 =
      some (SUCCESS, some { data := some [1, 2, 3, 9], len := 3, capacity := 4 }) := by decide
  ⟨hf, hp, growth_rule ⟨true, true, fun _ => 9⟩ _ _ 3 hf (by decide) (by decide) (by decide) hp⟩

/-- A full box of 5592409 elements grows to 8388614. -/
theorem push_box_tie (env : Env Nat) (b : box_t Nat) (l : List Nat) (v : Nat)
    (hd : b.data = some l) (hlen : b.len = 5592409) (hcap : b.capacity = 5592409)
    (hre : env.realloc_ok = true) :
    ∃ b1, push_box env (some b) v = some (SUCCESS, some b1) ∧ b1.capacity = 8388614 := by
  obtain ⟨tmp, h⟩ := push_box_grow env b v l hd (by rw [hlen, hcap]; decide) hre
    (by rw [hlen, hcap, new_capacity_tie]; decide)
  refine ⟨_, h, ?_⟩
  simp only [hcap, new_capacity_tie]

/-- C12 as stated fails: a full box of 5592409 elements (below `2 ^ 23`).  The
product `5592409 * 1.5 = 8388613.5` lies above `2 ^ 23`, where `float` has no
half steps, and rounds to the even neighbour: the successful `push` leaves the
capacity 8388614, while `⌊5592409 * 3 / 2⌋ = 8388613`. -/
theorem growth_rule_rounds_up :
    Fits ({ data := some (List.replicate 5592409 0), len := 5592409,
            capacity := 5592409 } : box_t Nat) ∧
    1 ≤ ({ data := some (List.replicate 5592409 0), len := 5592409,
           capacity := 5592409 } : box_t Nat).capacity ∧
    ({ data := some (List.replicate 5592409 0), len := 5592409,
       capacity := 5592409 } : box_t Nat).len =
      ({ data := some (List.replicate 5592409 0), len := 5592409,
         capacity := 5592409 } : box_t Nat).capacity ∧
    ({ data := some (List.replicate 5592409 0), len := 5592409,
       capacity := 5592409 } : box_t Nat).capacity < 2 ^ 23 ∧
    (∃ b1, push_box (⟨true, true, fun _ => 0⟩ : Env Nat)
        (some { data := some (List.replicate 5592409 0), len := 5592409,
                capacity := 5592409 }) 7 = some (SUCCESS, some b1) ∧
      b1.capacity = 8388614) ∧
    5592409 * 3 / 2 = 8388613 := by
  refine ⟨⟨by decide, by decide, ?_⟩, by decide, rfl, by decide,
    push_box_tie _ _ (List.replicate 5592409 0) 7 rfl rfl rfl rfl, by decide⟩
  show (List.replicate 5592409 (0 : Nat)).length < 2 ^ 32
  rw [List.length_replicate]
  decide

/-! ## C13: push is atomic on failure -/

/-- After `reduce_box_T` returns, `data` is not null. -/
theorem reduce_box_data [Zero T] {env : Env T} {b b' : box_t T} {st : box_status}
    (h : reduce_box env b = some (st, b')) : b'.data ≠ none := by
  unfold reduce_box at h
  split at h
  · simp at h
  · split at h
    · simp at h
    · simp only at h
      split at h
      · split at h
        · simp only [Option.some.injEq, Prod.mk.injEq] at h
          obtain ⟨-, rfl⟩ := h
          simp [realloc_failed_eq_none]
        · simp only [Option.some.injEq, Prod.mk.injEq] at h
          obtain ⟨-, rfl⟩ := h
          simp
      · simp only [Option.some.injEq, Prod.mk.injEq] at h
        obtain ⟨-, rfl⟩ := h
        simp

/-- In every reachable box with a null `data`, `len` is 0 and `capacity` at least 1. -/
theorem reachable_null_data [Zero T] (b : box_t T) (h : Reachable b) :
    b.data = none → b.len = 0 ∧ 1 ≤ b.capacity := by
  induction h with
  | create hdr_ok b hc =>
    intro _
    simp only [create_box] at hc
    split at hc
    · simp only [Prod.mk.injEq, Option.some.injEq, true_and] at hc
      subst hc
      exact ⟨rfl, Nat.le_refl _⟩
    · simp at hc
  | create_from hdr_ok data_ok v b hc =>
    intro hd
    simp only [create_box_from] at hc
    split at hc
    · split at hc
      · simp at hc
      · simp only [Prod.mk.injEq, Option.some.injEq, true_and] at hc
        subst hc
        simp at hd
    · simp at hc
  | push env b v st b' _ hp ih =>
    intro hd
    by_cases hs : st = SUCCESS
    · subst hs
      simp only [push_box] at hp
      split at hp
      · simp at hp
      · split at hp
        · split at hp
          · simp at hp
          · split at hp
            · simp at hp
            · simp only [Option.some.injEq, Prod.mk.injEq, true_and] at hp
              subst hp
              simp at hd
        · split at hp
          · simp at hp
          · simp only [Option.some.injEq, Prod.mk.injEq, true_and] at hp
            subst hp
            simp at hd
    · rcases push_box_failed hp hs with ⟨-, rfl⟩ | ⟨-, -, _, -, -, rfl⟩
      · exact ih hd
      · simp [realloc_failed_eq_none] at hd
  | pop env b item st b' item' _ hp ih =>
    intro hd
    rcases item with _ | old
    · simp only [pop_box, Option.some.injEq, Prod.mk.injEq] at hp
      obtain ⟨-, rfl, -⟩ := hp
      exact ih hd
    · rcases pop_box_returned hp with ⟨-, -, rfl, -⟩ | ⟨-, _, -, hred, -⟩
      · exact ih hd
      · exact absurd hd (reduce_box_data hred)
  | remove env b index st b' _ hp ih =>
    intro hd
    rcases remove_box_returned hp with ⟨-, -, rfl⟩ | ⟨-, -, -, rfl⟩ | ⟨-, -, _, _, -, -, hred⟩
    · exact ih hd
    · exact ih hd
    · exact absurd hd (reduce_box_data hred)
  | set b v index st b' _ hp ih =>
    intro hd
    simp only [set_box] at hp
    split at hp
    · simp only [Option.some.injEq, Prod.mk.injEq] at hp
      obtain ⟨-, rfl⟩ := hp
      exact ih hd
    · split at hp
      · simp only [Option.some.injEq, Prod.mk.injEq] at hp
        obtain ⟨-, rfl⟩ := hp
        exact ih hd
      · split at hp
        · simp at hp
        · split at hp
          · simp at hp
          · simp only [Option.some.injEq, Prod.mk.injEq] at hp
            obtain ⟨-, rfl⟩ := hp
            simp at hd
  | cat env d s st d' s' _ _ hcap _ hp ihd _ =>
    intro hd
    simp only [cat_box] at hp
    split at hp
    · simp only [Option.some.injEq, Prod.mk.injEq] at hp
      obtain ⟨-, rfl, -⟩ := hp
      simp only [realloc_failed_eq_none] at hd
      have := ihd hd
      exact ⟨this.1, by simp only; omega⟩
    · split at hp
      · simp only [Option.some.injEq, Prod.mk.injEq] at hp
        obtain ⟨-, rfl, -⟩ := hp
        simp at hd
      · simp at hp
  | cat_self env d st d' _ hcap _ hp ih =>
    intro hd
    simp only [cat_box_self] at hp
    split at hp
    · simp only [Option.some.injEq, Prod.mk.injEq] at hp
      obtain ⟨-, rfl⟩ := hp
      simp only [realloc_failed_eq_none] at hd
      have := ih hd
      exact ⟨this.1, by simp only; omega⟩
    · split at hp
      · simp only [Option.some.injEq, Prod.mk.injEq] at hp
        obtain ⟨-, rfl⟩ := hp
        simp at hd
      · simp at hp

/-- A `push` that has to grow a box with a block, the `realloc` returning `NULL`:
`REALLOC_ERROR`, and the box keeps what `realloc` left of the block. -/
theorem push_box_growth_failed [Zero T] (env : Env T) (b : box_t T) (v : T) (buf : List T)
    (hd : b.data = some buf) (hgrow : (b.len + 1) % 2 ^ 32 > b.capacity)
    (hre : env.realloc_ok = false) :
    push_box env (some b) v =
      some (REALLOC_ERROR,
        some { b with data := realloc_failed (some buf) (new_capacity b.capacity) }) := by
  simp only [push_box, hd, hgrow, realloc, hre]
  simp

/-- A full box of `n` elements, for every `n` from 1 to `2 ^ 32 - 1`, is reachable:
`create_box_T_from` makes the box of one element, and `cat` of the full boxes of
`⌊n / 2⌋` and `⌈n / 2⌉` elements makes the box of `n`. -/
theorem reachable_full [Zero T] (n : Nat) : 1 ≤ n → n < 2 ^ 32 →
    ∃ buf : List T, n ≤ buf.length ∧
      Reachable ({ data := some buf, len := n, capacity := n } : box_t T) := by
  induction n using Nat.strong_induction_on with
  | _ n ih =>
    intro h1 hlt
    by_cases hn : n = 1
    · subst hn
      exact ⟨[0], by simp, Reachable.create_from true true 0 _ (by simp [create_box_from, calloc])⟩
    · obtain ⟨la, hla, hra⟩ := ih (n / 2) (by omega) (by omega) (by omega)
      obtain ⟨lc, hlc, hrc⟩ := ih (n - n / 2) (by omega) (by omega) (by omega)
      have hxa : Holds ({ data := some la, len := n / 2, capacity := n / 2 } : box_t T)
          (la.take (n / 2)) := ⟨by simp only [List.length_take]; omega, rfl⟩
      have hxc : Holds ({ data := some lc, len := n - n / 2, capacity := n - n / 2 } : box_t T)
          (lc.take (n - n / 2)) := ⟨by simp only [List.length_take]; omega, rfl⟩
      obtain ⟨d', hcat, hx', hlen, hcap⟩ := cat_box_spec (⟨true, true, fun _ => 0⟩ : Env T) _ _ _ _
        hxa hxc (Nat.le_refl _) (by simp only; omega) rfl
      have hne : la.take (n / 2) ++ lc.take (n - n / 2) ≠ [] := by
        intro h
        have := congrArg List.length h
        simp only [List.length_append, List.length_take, List.length_nil] at this
        omega
      obtain ⟨sb, hsd, hsle, -⟩ := holds_data hx' hne
      simp only at hlen hcap
      have hd' : d' = { data := some sb, len := n, capacity := n } := by
        cases d'
        simp only at hsd hlen hcap
        subst hsd
        simp only [box_t.mk.injEq, true_and]
        omega
      rw [hd'] at hcat hsle
      exact ⟨sb, hsle, Reachable.cat _ _ _ _ _ _ hra hrc (by simp only; omega)
        (by simp only; omega) hcat⟩

/-- A box with elements and a freed block holds no element sequence. -/
theorem not_holds_freed (n : Nat) (xs : List T) (hn : n ≠ 0) :
    ¬ Holds ({ data := some [], len := n, capacity := n } : box_t T) xs := by
  intro h
  have h1 := h.1
  have h2 := congrArg List.length h.2
  simp only [Option.getD_some, List.take_nil, List.length_nil] at h1 h2
  omega

/-- C13 (amended).  Push is atomic on failure: for every box reachable from
`create_box_T` or `create_box_T_from` by the public operations, if the `push` has
to grow the box (`len + 1 > capacity`), the new capacity it asks for is not 0 and
the reallocation fails, `push` returns `REALLOC_ERROR` and the box is exactly what
it was before the call: same `len`, same `capacity`, same block. -/
theorem push_atomic_on_failure [Zero T] (env : Env T) (b : box_t T) (v : T)
    (hr : Reachable b) (hgrow : (b.len + 1) % 2 ^ 32 > b.capacity)
    (hn : new_capacity b.capacity ≠ 0) (hre : env.realloc_ok = false) :
    push_box env (some b) v = some (REALLOC_ERROR, some b) := by
  cases hd : b.data with
  | none =>
    obtain ⟨h0, h1⟩ := reachable_null_data b hr hd
    rw [h0] at hgrow
    have : (0 + 1) % 2 ^ 32 = 1 := by decide
    omega
  | some buf =>
    rw [push_box_growth_failed env b v buf hd hgrow hre, realloc_failed_pos _ _ hn, ← hd]

/-- Witness of C13: the full box `[7]` made by `create_box_T_from`, a `push`
whose `realloc` fails. -/
theorem push_atomic_on_failure_witness :
    Reachable ({ data := some [7], len := 1, capacity := 1 } : box_t Nat) ∧
    (({ data := some [7], len := 1, capacity := 1 } : box_t Nat).len + 1) % 2 ^ 32 >
      ({ data := some [7], len := 1, capacity := 1 } : box_t Nat).capacity ∧
    new_capacity ({ data := some [7], len := 1, capacity := 1 } : box_t Nat).capacity ≠ 0 ∧
    push_box (⟨true, false, fun _ => 9⟩ : Env Nat)
      (some { data := some [7], len := 1, capacity := 1 }) 8 =
      some (REALLOC_ERROR, some { data := some [7], len := 1, capacity := 1 }) :=
  have h : Reachable ({ data := some [7], len := 1, capacity := 1 } : box_t Nat) :=
    Reachable.create_from true true 7 _ rfl
  ⟨h, by decide, by decide,
    push_atomic_on_failure ⟨true, false, fun _ => 9⟩ _ 8 h (by decide) (by decide) rfl⟩

/-- C13 as stated fails: a full box of 2863311530 elements, reachable by `cat`
calls whose sums do not wrap.  The growth computes `2863311530 * 1.5` in `float`,
which is `2 ^ 32`, and asks `realloc` for 0 slots: the block is freed, `NULL`
comes back, and `push` returns `REALLOC_ERROR` with `len` and `capacity` as they
were and the elements gone. -/
theorem push_frees_block_on_zero_growth :
    ∃ buf : List Nat, 2863311530 ≤ buf.length ∧
      Reachable ({ data := some buf, len := 2863311530, capacity := 2863311530 } : box_t Nat) ∧
      Holds ({ data := some buf, len := 2863311530, capacity := 2863311530 } : box_t Nat)
        (buf.take 2863311530) ∧
      new_capacity 2863311530 = 0 ∧
      push_box (⟨true, false, fun _ => 0⟩ : Env Nat)
        (some { data := some buf, len := 2863311530, capacity := 2863311530 }) 7 =
        some (REALLOC_ERROR,
          some { data := some [], len := 2863311530, capacity := 2863311530 }) ∧
      ¬ Holds ({ data := some [], len := 2863311530, capacity := 2863311530 } : box_t Nat)
        (buf.take 2863311530) := by
  obtain ⟨buf, hle, hr⟩ := reachable_full (T := Nat) 2863311530 (by decide) (by decide)
  have hnc : new_capacity 2863311530 = 0 := by decide
  refine ⟨buf, hle, hr, ⟨?_, rfl⟩, hnc, ?_, not_holds_freed _ _ (by decide)⟩
  · show 2863311530 = (buf.take 2863311530).length
    rw [List.length_take]
    omega
  · have hg : (2863311530 + 1) % 2 ^ 32 > 2863311530 := by decide
    rw [push_box_growth_failed ⟨true, false, fun _ => 0⟩ _ 7 buf rfl hg rfl]
    simp only [hnc, realloc_failed, if_true]

/-! ## C14: cat on failure -/

/-- When `realloc` fails on a request for at least one slot, `cat` returns
`REALLOC_ERROR` and leaves everything of `dest` but `capacity`, which is already
the sum. -/
theorem cat_box_failed (env : Env T) (d s : box_t T) (hre : env.realloc_ok = false)
    (hn : (d.capacity + s.capacity) % 2 ^ 32 ≠ 0) :
    cat_box env (some d) (some s) =
      some (REALLOC_ERROR, some { d with capacity := (d.capacity + s.capacity) % 2 ^ 32 },
        some s) := by
  simp only [cat_box, realloc, hre, realloc_failed_pos _ _ hn]
  simp

/-- C14 fails on the code: `dest = [1, 2]` (`len = capacity = 2`), `src = [3, 4]`
(`len = capacity = 2`), the `realloc` of `cat` fails.  `cat` returns
`REALLOC_ERROR` with `dest->capacity` already 4 over a block of 2 slots, so the
capacity is not what it was; the next `push`, which sees room, writes `data[2]`
outside the block. -/
theorem cat_failure_keeps_new_capacity :
    cat_box (⟨true, false, fun _ => 9⟩ : Env Nat)
      (some { data := some [1, 2], len := 2, capacity := 2 })
      (some { data := some [3, 4], len := 2, capacity := 2 }) =
      some (REALLOC_ERROR, some { data := some [1, 2], len := 2, capacity := 4 },
        some { data := some [3, 4], len := 2, capacity := 2 }) ∧
    ({ data := some [1, 2], len := 2, capacity := 4 } : box_t Nat).capacity ≠
      ({ data := some [1, 2], len := 2, capacity := 2 } : box_t Nat).capacity ∧
    push_box (⟨true, true, fun _ => 9⟩ : Env Nat)
      (some { data := some [1, 2], len := 2, capacity := 4 }) 5 = none := by
  refine ⟨by decide, by decide, by decide⟩

/-! ## C15: the capacity stays at least 1 -/

/-- A successful `push_box_T` leaves a capacity of at least one slot behind when
the box had one: the written slot `len` lies inside the block, which has
`new_capacity` slots after a growth. -/
theorem push_box_capacity_pos [Zero T] {env : Env T} {b b' : box_t T} {v : T}
    (h : push_box env (some b) v = some (SUCCESS, some b')) (hc : 1 ≤ b.capacity) :
    1 ≤ b'.capacity := by
  simp only [push_box] at h
  split at h
  · simp at h
  · rename_i buf _
    split at h
    · split at h
      · simp at h
      · rename_i tmp hre
        split at h
        · simp at h
        · rename_i tmp' hst
          simp only [Option.some.injEq, Prod.mk.injEq, true_and] at h
          subst h
          obtain ⟨-, hl, -⟩ := realloc_eq_some hre
          obtain ⟨hlt, -⟩ := store_eq_some hst
          simp only
          omega
    · split at h
      · simp at h
      · simp only [Option.some.injEq, Prod.mk.injEq, true_and] at h
        subst h
        exact hc

/-- Whatever `reduce_box_T` returns, it leaves a capacity of at least one slot
behind when the box had one: the capacity is halved only when the half is above
the new length. -/
theorem reduce_box_capacity_pos [Zero T] {env : Env T} {b b' : box_t T} {st : box_status}
    (h : reduce_box env b = some (st, b')) (hc : 1 ≤ b.capacity) : 1 ≤ b'.capacity := by
  simp only [reduce_box] at h
  split at h
  · simp at h
  · split at h
    · simp at h
    · split at h
      · rename_i hlt
        split at h <;>
          · simp only [Option.some.injEq, Prod.mk.injEq] at h
            rw [← h.2]
            simp only
            omega
      · simp only [Option.some.injEq, Prod.mk.injEq] at h
        rw [← h.2]
        exact hc

/-- A successful `cat_box_T` gives the destination the sum of the two capacities,
reduced modulo `2 ^ 32`. -/
theorem cat_box_capacity {env : Env T} {d s d' : box_t T} {s' : Option (box_t T)}
    (h : cat_box env (some d) (some s) = some (SUCCESS, some d', s')) :
    d'.capacity = (d.capacity + s.capacity) % 2 ^ 32 := by
  simp only [cat_box] at h
  split at h
  · simp at h
  · split at h
    · simp only [Option.some.injEq, Prod.mk.injEq, true_and] at h
      rw [← h.1]
    · simp at h

/-- A successful `cat_box_T(box, box)` gives the box twice its capacity, reduced
modulo `2 ^ 32`. -/
theorem cat_box_self_capacity {env : Env T} {d d' : box_t T}
    (h : cat_box_self env (some d) = some (SUCCESS, some d')) :
    d'.capacity = (d.capacity + d.capacity) % 2 ^ 32 := by
  simp only [cat_box_self] at h
  split at h
  · simp at h
  · split at h
    · simp only [Option.some.injEq, Prod.mk.injEq, true_and] at h
      rw [← h]
    · simp at h

/-- An empty box of any capacity from 1 to `2 ^ 32 - 1` is built by successful
calls: `cat_box_T(box, box)` doubles the capacity and `cat_box_T` with a fresh
source adds one to it. -/
theorem built_empty_of_capacity [Zero T] (n : Nat) : 1 ≤ n → n < 2 ^ 32 →
    ∃ dat : Option (List T), Built true ({ data := dat, len := 0, capacity := n } : box_t T) := by
  induction n using Nat.strong_induction_on with
  | _ n ih =>
    intro h1 hlt
    by_cases hn : n = 1
    · subst hn
      exact ⟨none, Built.create true _ rfl⟩
    · have hdbl : ∃ dat : Option (List T),
          Built true ({ data := dat, len := 0, capacity := n / 2 + n / 2 } : box_t T) := by
        obtain ⟨dat, hb⟩ := ih (n / 2) (by omega) (by omega) (by omega)
        have hm : (n / 2 + n / 2) % 2 ^ 32 = n / 2 + n / 2 := by omega
        refine ⟨realloc true (fun _ => 0) dat (n / 2 + n / 2),
          Built.cat_self ⟨true, true, fun _ => 0⟩ _ _ rfl hb (by simp only; omega) ?_⟩
        simp only [cat_box_self, hm, realloc, if_true, memcpy, Nat.add_zero, Nat.zero_mod]
      by_cases hev : n % 2 = 0
      · have he : n / 2 + n / 2 = n := by omega
        rw [he] at hdbl
        exact hdbl
      · obtain ⟨dat, hb⟩ := hdbl
        have he : n / 2 + n / 2 + 1 = n := by omega
        have hm : (n / 2 + n / 2 + 1) % 2 ^ 32 = n := by omega
        refine ⟨realloc true (fun _ => 0) dat n,
          Built.cat ⟨true, true, fun _ => 0⟩ _ ⟨none, 0, 1⟩ _ (some ⟨none, 0, 1⟩) rfl hb
            (by simp only; omega) ?_⟩
        simp only [cat_box, hm, realloc, if_true, memcpy, Nat.add_zero, Nat.zero_mod]

/-- C15 (amended).  The capacity stays at least 1: `create_box_T` yields `len = 0`
and `capacity = 1`, `create_box_T_from(v)` yields `len = 1`, `capacity = 1` and
`get(0) = v`, and after any finite sequence of `push`, `pop`, `remove`, `set` and
`cat` calls that returned `SUCCESS`, every `cat` having a capacity sum below
`2 ^ 32`, the capacity is at least 1. -/
theorem capacity_ge_one [Zero T] (env : Env T) (v old : T) (b : box_t T) (h : Built true b) :
    create_box true (none : Option (box_t T)) =
      (SUCCESS, some { data := none, len := 0, capacity := 1 }) ∧
    create_box_from true true none v =
      (SUCCESS, some { data := some [v], len := 1, capacity := 1 }) ∧
    get_box env (some { data := some [v], len := 1, capacity := 1 }) (some old) 0 =
      some (SUCCESS, some { data := some [v], len := 1, capacity := 1 }, some v) ∧
    1 ≤ b.capacity := by
  refine ⟨rfl, by simp [create_box_from, calloc], by simp [get_box, load], ?_⟩
  induction h with
  | create hdr_ok b hc =>
    simp only [create_box] at hc
    split at hc
    · simp only [Prod.mk.injEq, Option.some.injEq, true_and] at hc
      subst hc
      exact Nat.le_refl 1
    · simp at hc
  | create_from hdr_ok data_ok v b hc =>
    simp only [create_box_from] at hc
    split at hc
    · split at hc
      · simp at hc
      · simp only [Prod.mk.injEq, Option.some.injEq, true_and] at hc
        subst hc
        exact Nat.le_refl 1
    · simp at hc
  | push env b v b' _ hp ih => exact push_box_capacity_pos hp ih
  | pop env b item b' item' _ hp ih =>
    rcases item with _ | old
    · simp [pop_box] at hp
    · rcases pop_box_returned hp with ⟨-, hst, -⟩ | ⟨-, _, -, hred, -⟩
      · simp at hst
      · exact reduce_box_capacity_pos hred ih
  | remove env b index b' _ hp ih =>
    rcases remove_box_returned hp with ⟨-, hst, -⟩ | ⟨-, -, hst, -⟩ | ⟨-, -, _, _, -, -, hred⟩
    · simp at hst
    · simp at hst
    · exact reduce_box_capacity_pos hred ih
  | set b v index b' _ hp ih =>
    obtain ⟨buf, -, -, rfl⟩ := set_box_success hp
    exact ih
  | cat env d s d' s' _ _ hsum hc ih =>
    rw [cat_box_capacity hc, Nat.mod_eq_of_lt hsum]
    omega
  | cat_self env d d' _ _ hsum hc ih =>
    rw [cat_box_self_capacity hc, Nat.mod_eq_of_lt hsum]
    omega

/-- Witness of C15: the box `create_box_T_from(7)` and a `pop` leave behind. -/
theorem capacity_ge_one_witness :
    Built true ({ data := some [0], len := 0, capacity := 1 } : box_t Nat) ∧
    (create_box true (none : Option (box_t Nat)) =
      (SUCCESS, some { data := none, len := 0, capacity := 1 }) ∧
    create_box_from true true none 7 =
      (SUCCESS, some { data := some [7], len := 1, capacity := 1 }) ∧
    get_box (⟨true, true, fun _ => 0⟩ : Env Nat)
      (some { data := some [7], len := 1, capacity := 1 }) (some 5) 0 =
      some (SUCCESS, some { data := some [7], len := 1, capacity := 1 }, some 7) ∧
    1 ≤ ({ data := some [0], len := 0, capacity := 1 } : box_t Nat).capacity) :=
  have h : Built true ({ data := some [0], len := 0, capacity := 1 } : box_t Nat) :=
    Built.pop ⟨true, true, fun _ => 0⟩ ⟨some [7], 1, 1⟩ (some 0) _ (some 7)
      (Built.create_from true true 7 _ rfl) (by decide)
  ⟨h, capacity_ge_one ⟨true, true, fun _ => 0⟩ 7 5 _ h⟩

/-- C15 as stated fails: an empty box of capacity `2 ^ 32 - 1`, itself built by
successful `cat` calls, appended to a new box (capacity 1).  The sum of the
capacities wraps, `cat` returns `SUCCESS` and the destination has capacity 0. -/
theorem cat_wraps_capacity_to_zero :
    ∃ dat : Option (List Nat),
      Built true ({ data := dat, len := 0, capacity := 4294967295 } : box_t Nat) ∧
      create_box true (none : Option (box_t Nat)) =
        (SUCCESS, some { data := none, len := 0, capacity := 1 }) ∧
      cat_box (⟨true, true, fun _ => 0⟩ : Env Nat)
        (some { data := none, len := 0, capacity := 1 })
        (some { data := dat, len := 0, capacity := 4294967295 }) =
        some (SUCCESS, some { data := some [], len := 0, capacity := 0 },
          some { data := dat, len := 0, capacity := 4294967295 }) := by
  obtain ⟨dat, hb⟩ := built_empty_of_capacity (T := Nat) 4294967295 (by decide) (by decide)
  refine ⟨dat, hb, rfl, ?_⟩
  have hm : (1 + 4294967295) % 2 ^ 32 = 0 := by decide
  simp only [cat_box, hm, realloc, if_true, memcpy, Nat.add_zero, Nat.zero_mod,
    Option.getD_none, List.take_nil, List.length_nil, Nat.sub_self, List.range_zero,
    List.map_nil, List.append_nil]

/-! ## C16: the slots remove touches -/

/-- On a full box of fewer than `2 ^ 31` elements, `remove` reads the slot
`data[capacity]`, one past the block. -/
theorem remove_box_slots_full (b : box_t T) (i : Nat) (hi : i < b.len)
    (hfull : b.len = b.capacity) (hlen : b.len < 2 ^ 31) :
    (b.capacity : Int) ∈ remove_box_slots b i := by
  have hz : b.len ≠ 0 := by omega
  have hgt : ¬ i > b.len - 1 := by omega
  have hcnt : (to_int b.len - (i : Int)).toNat = b.len - i := by
    rw [to_int_of_lt hlen]
    omega
  simp only [remove_box_slots, hz, hgt, if_false, to_int_of_lt (show i < 2 ^ 31 by omega), hcnt,
    List.mem_append]
  left
  have := (shift_loop_slots_spec (b.len - i) i).2 (by omega)
  rwa [show i + (b.len - i) = b.capacity by omega] at this

/-- On a box of fewer than `2 ^ 31` elements that is not full, every slot
`remove` touches is inside the `capacity` slots. -/
theorem remove_box_slots_lt (b : box_t T) (i : Nat) (hlt : b.len < b.capacity)
    (hlen : b.len < 2 ^ 31) :
    ∀ s ∈ remove_box_slots b i, 0 ≤ s ∧ s < (b.capacity : Int) := by
  intro s hs
  by_cases hz : b.len = 0
  · simp [remove_box_slots, hz] at hs
  · by_cases hgt : i > b.len - 1
    · simp [remove_box_slots, hz, hgt] at hs
    · have hcnt : (to_int b.len - (i : Int)).toNat = b.len - i := by
        rw [to_int_of_lt hlen]
        omega
      have hm : (b.len + 2 ^ 32 - 1) % 2 ^ 32 = b.len - 1 := by omega
      simp only [remove_box_slots, hz, hgt, if_false, to_int_of_lt (show i < 2 ^ 31 by omega),
        hcnt, hm, List.mem_append, List.mem_singleton] at hs
      rcases hs with hs | rfl
      · have := (shift_loop_slots_spec (b.len - i) i).1 s hs
        have h1 := this.1
        have h2 := this.2
        push_cast at h2
        omega
      · omega

/-- C16 fails on the code: the box `[10, 20, 30, 40]` with `len = capacity = 4`
and a block of 4 slots, `remove(1)`.  The call touches the slots 2, 1, 3, 2, 4, 3,
3: the last iteration of the loop reads `data[4]`, one past the block, and the
loop leaves what it read there (here 9) in slot 3 until the slot is zeroed. -/
theorem remove_reads_past_block :
    ((({ data := some [10, 20, 30, 40], len := 4, capacity := 4 } : box_t Nat).data).getD
      []).length = ({ data := some [10, 20, 30, 40], len := 4, capacity := 4 } : box_t Nat).capacity ∧
    remove_box_slots ({ data := some [10, 20, 30, 40], len := 4, capacity := 4 } : box_t Nat) 1 =
      [2, 1, 3, 2, 4, 3, 3] ∧
    (¬ ∀ s ∈ remove_box_slots
        ({ data := some [10, 20, 30, 40], len := 4, capacity := 4 } : box_t Nat) 1,
      s < (({ data := some [10, 20, 30, 40], len := 4, capacity := 4 } : box_t Nat).capacity : Int)) ∧
    shift_loop (fun _ => (9 : Nat)) 3 1 [10, 20, 30, 40] = some [10, 30, 40, 9] ∧
    remove_box (⟨true, true, fun _ => 9⟩ : Env Nat)
      (some { data := some [10, 20, 30, 40], len := 4, capacity := 4 }) 1 =
      some (SUCCESS, some { data := some [10, 30, 40, 0], len := 3, capacity := 4 }) := by
  refine ⟨rfl, by decide, by decide, by decide, by decide⟩

/-! ## C17: the shrink rule -/

/-- C17.  Shrink rule: for every box with `len ≥ 1` (an `unsigned int`), a `pop`
or `remove` that returned `SUCCESS` leaves `len` one less, the slot at the old
index `len - 1` zero, and the capacity `⌊capacity / 2⌋` if the new `len` is
strictly below `⌊capacity / 2⌋`, unchanged otherwise: it is halved at most once. -/
theorem shrink_rule [Zero T] (env : Env T) (b b' : box_t T) (i : Nat) (old : T)
    (it : Option T) (h1 : 1 ≤ b.len) (h3 : b.len < 2 ^ 32)
    (h : pop_box env (some b) (some old) = some (SUCCESS, some b', it) ∨
         remove_box env (some b) i = some (SUCCESS, some b')) :
    b'.len = b.len - 1 ∧
    (∃ buf', b'.data = some buf' ∧ buf'[b.len - 1]? = some 0) ∧
    b'.capacity = (if b.len - 1 < b.capacity / 2 then b.capacity / 2 else b.capacity) := by
  have hz : b.len ≠ 0 := by omega
  rcases h with h | h
  · rcases pop_box_returned h with ⟨h0, -⟩ | ⟨-, _, -, hred, -⟩
    · exact absurd h0 hz
    · obtain ⟨_, buf', -, -, -, rfl, -, hzero⟩ := reduce_box_returned hred h1 h3
      exact ⟨rfl, ⟨buf', rfl, hzero⟩, rfl⟩
  · rcases remove_box_returned h with ⟨h0, -⟩ | ⟨-, -, hst, -⟩ | ⟨-, -, _, _, -, -, hred⟩
    · exact absurd h0 hz
    · simp at hst
    · obtain ⟨_, buf', -, -, -, rfl, -, hzero⟩ := reduce_box_returned hred h1 h3
      exact ⟨rfl, ⟨buf', rfl, hzero⟩, rfl⟩

/-- Witness of C17: popping the box `[1, 2]` of capacity 4 halves the capacity. -/
theorem shrink_rule_witness :
    1 ≤ ({ data := some [1, 2, 0, 0], len := 2, capacity := 4 } : box_t Nat).len ∧
    ({ data := some [1, 2, 0, 0], len := 2, capacity := 4 } : box_t Nat).len < 2 ^ 32 ∧
    pop_box (⟨true, true, fun _ => 9⟩ : Env Nat)
      (some { data := some [1, 2, 0, 0], len := 2, capacity := 4 }) (some 5) =
      some (SUCCESS, some { data := some [1, 0], len := 1, capacity := 2 }, some 2) ∧
    (({ data := some [1, 0], len := 1, capacity := 2 } : box_t Nat).len =
        ({ data := some [1, 2, 0, 0], len := 2, capacity := 4 } : box_t Nat).len - 1 ∧
     (∃ buf', ({ data := some [1, 0], len := 1, capacity := 2 } : box_t Nat).data = some buf' ∧
        buf'[({ data := some [1, 2, 0, 0], len := 2, capacity := 4 } : box_t Nat).len - 1]? =
          some 0) ∧
     ({ data := some [1, 0], len := 1, capacity := 2 } : box_t Nat).capacity =
       (if ({ data := some [1, 2, 0, 0], len := 2, capacity := 4 } : box_t Nat).len - 1 <
            ({ data := some [1, 2, 0, 0], len := 2, capacity := 4 } : box_t Nat).capacity / 2
        then ({ data := some [1, 2, 0, 0], len := 2, capacity := 4 } : box_t Nat).capacity / 2
        else ({ data := some [1, 2, 0, 0], len := 2, capacity := 4 } : box_t Nat).capacity)) :=
  have hp : pop_box (⟨true, true, fun _ => 9⟩ : Env Nat)
      (some { data := some [1, 2, 0, 0], len := 2, capacity := 4 }) (some 5) =
      some (SUCCESS, some { data := some [1, 0], len := 1, capacity := 2 }, some 2) := by decide
  ⟨by decide, by decide, hp,
    shrink_rule ⟨true, true, fun _ => 9⟩ _ _ 0 5 (some 2) (by decide) (by decide) (Or.inl hp)⟩

/-! ## C18: no thrashing at the resize boundary -/

/-- C18.  No thrashing at the resize boundary: for every box with
`1 ≤ capacity` and `len ≤ capacity` (its fields and block size being
`unsigned int` values), if a `push` returned `SUCCESS` and changed the capacity,
the `pop` that follows returns `SUCCESS` and leaves the capacity as the `push`
left it; and if a `pop` returned `SUCCESS` and changed the capacity, the `push`
that follows returns `SUCCESS` and leaves the capacity as the `pop` left it. -/
theorem no_thrashing [Zero T] (env1 env2 : Env T) (b b1 : box_t T) (v old : T) (it : Option T)
    (hfit : Fits b) (h1 : 1 ≤ b.capacity) (hle : b.len ≤ b.capacity)
    (hchg : b1.capacity ≠ b.capacity) :
    (push_box env1 (some b) v = some (SUCCESS, some b1) →
      ∃ b2 it2, pop_box env2 (some b1) (some old) = some (SUCCESS, some b2, it2) ∧
        b2.capacity = b1.capacity) ∧
    (pop_box env1 (some b) (some old) = some (SUCCESS, some b1, it) →
      ∃ b2, push_box env2 (some b1) v = some (SUCCESS, some b2) ∧
        b2.capacity = b1.capacity) := by
  constructor
  · intro hp
    obtain ⟨tmp, rfl, hlt, hlt2, -⟩ := push_box_success hp hfit.2.2
    have hmod : (b.len + 1) % 2 ^ 32 = b.len + 1 := by omega
    simp only [hmod] at hchg ⊢
    have hcond : b.len + 1 > b.capacity := by
      by_contra hc
      rw [if_neg hc] at hchg
      exact hchg rfl
    rw [if_pos hcond] at hchg ⊢
    have hnc := new_capacity_le b.capacity
    obtain ⟨buf', hred, -, -⟩ := reduce_box_spec env2
      { data := some (tmp.set b.len v), len := b.len + 1, capacity := new_capacity b.capacity }
      (tmp.set b.len v) rfl (by simp only; omega) (by simp only [List.length_set]; omega)
      (by simp only; omega)
    simp only at hred
    have hns : ¬ (b.len + 1 - 1 < new_capacity b.capacity / 2) := by omega
    have hns' : ¬ (b.len + 1 - 1 < new_capacity b.capacity / 2 ∧ env2.realloc_ok = false) :=
      fun h => hns h.1
    rw [if_neg hns, if_neg hns'] at hred
    refine ⟨{ data := some buf', len := b.len + 1 - 1, capacity := new_capacity b.capacity },
      some (load env2.junk (tmp.set b.len v) (b.len + 1 - 1)), ?_, rfl⟩
    simp only [pop_box, Nat.add_one_ne_zero, if_false, hred]
  · intro hp
    rcases pop_box_returned hp with ⟨-, hst, -⟩ | ⟨hz, _, -, hred, -⟩
    · simp at hst
    · obtain ⟨_, buf', -, -, -, rfl, -, hzero⟩ :=
        reduce_box_returned hred (by omega) hfit.1
      simp only at hchg ⊢
      have hsh : b.len - 1 < b.capacity / 2 := by
        by_contra hc
        rw [if_neg hc] at hchg
        exact hchg rfl
      rw [if_pos hsh]
      have hst : b.len - 1 < buf'.length := by
        by_contra hc
        rw [List.getElem?_eq_none (by omega)] at hzero
        simp at hzero
      have hcap := hfit.2.1
      have hmod : (b.len - 1 + 1) % 2 ^ 32 = b.len - 1 + 1 := by omega
      have hng : ¬ (b.len - 1 + 1 > b.capacity / 2) := by omega
      refine ⟨{ data := some (buf'.set (b.len - 1) v), len := b.len - 1 + 1,
                capacity := b.capacity / 2 }, ?_, rfl⟩
      simp only [push_box, hmod, hng, if_false, store, hst, if_true]

/-- Witness of C18: `push` onto the full box `[1, 2]` then `pop`, and `pop` from
the box `[1, 2]` of capacity 4 then `push`. -/
theorem no_thrashing_witness :
    (Fits ({ data := some [1, 2], len := 2, capacity := 2 } : box_t Nat) ∧
     1 ≤ ({ data := some [1, 2], len := 2, capacity := 2 } : box_t Nat).capacity ∧
     ({ data := some [1, 2], len := 2, capacity := 2 } : box_t Nat).len ≤
       ({ data := some [1, 2], len := 2, capacity := 2 } : box_t Nat).capacity ∧
     ({ data := some [1, 2, 3, 9], len := 3, capacity := 4 } : box_t Nat).capacity ≠
       ({ data := some [1, 2], len := 2, capacity := 2 } : box_t Nat).capacity ∧
     push_box (⟨true, true, fun _ => 9⟩ : Env Nat)
       (some { data := some [1, 2], len := 2, capacity := 2 }) 3 =
       some (SUCCESS, some { data := some [1, 2, 3, 9], len := 3, capacity := 4 }) ∧
     ∃ b2 it2, pop_box (⟨true, false, fun _ => 9⟩ : Env Nat)
         (some { data := some [1, 2, 3, 9], len := 3, capacity := 4 }) (some 5) =
         some (SUCCESS, some b2, it2) ∧
       b2.capacity = ({ data := some [1, 2, 3, 9], len := 3, capacity := 4 } : box_t Nat).capacity) ∧
    (Fits ({ data := some [1, 2, 0, 0], len := 2, capacity := 4 } : box_t Nat) ∧
     1 ≤ ({ data := some [1, 2, 0, 0], len := 2, capacity := 4 } : box_t Nat).capacity ∧
     ({ data := some [1, 2, 0, 0], len := 2, capacity := 4 } : box_t Nat).len ≤
       ({ data := some [1, 2, 0, 0], len := 2, capacity := 4 } : box_t Nat).capacity ∧
     ({ data := some [1, 0], len := 1, capacity := 2 } : box_t Nat).capacity ≠
       ({ data := some [1, 2, 0, 0], len := 2, capacity := 4 } : box_t Nat).capacity ∧
     pop_box (⟨true, true, fun _ => 9⟩ : Env Nat)
       (some { data := some [1, 2, 0, 0], len := 2, capacity := 4 }) (some 5) =
       some (SUCCESS, some { data := some [1, 0], len := 1, capacity := 2 }, some 2) ∧
     ∃ b2, push_box (⟨true, false, fun _ => 9⟩ : Env Nat)
         (some { data := some [1, 0], len := 1, capacity := 2 }) 3 = some (SUCCESS, some b2) ∧
       b2.capacity = ({ data := some [1, 0], len := 1, capacity := 2 } : box_t Nat).capacity) :=
  have hf : Fits ({ data := some [1, 2], len := 2, capacity := 2 } : box_t Nat) := by
    simp [Fits]
  have hp : push_box (⟨true, true, fun _ => 9⟩ : Env Nat)
      (some { data := some [1, 2], len := 2, capacity := 2 }) 3 =
      some (SUCCESS, some { data := some [1, 2, 3, 9], len := 3, capacity := 4 }) := by decide
  have hg : Fits ({ data := some [1, 2, 0, 0], len := 2, capacity := 4 } : box_t Nat) := by
    simp [Fits]
  have hq : pop_box (⟨true, true, fun _ => 9⟩ : Env Nat)
      (some { data := some [1, 2, 0, 0], len := 2, capacity := 4 }) (some 5) =
      some (SUCCESS, some { data := some [1, 0], len := 1, capacity := 2 }, some 2) := by decide
  ⟨⟨hf, by decide, by decide, by decide, hp,
      (no_thrashing ⟨true, true, fun _ => 9⟩ ⟨true, false, fun _ => 9⟩ _ _ 3 5 none hf
        (by decide) (by decide) (by decide)).1 hp⟩,
    ⟨hg, by decide, by decide, by decide, hq,
      (no_thrashing ⟨true, true, fun _ => 9⟩ ⟨true, false, fun _ => 9⟩ _ _ 3 5 (some 2) hg
        (by decide) (by decide) (by decide)).2 hq⟩⟩

/-! ## C19: a failed shrink -/

/-- The boxes built by successful `push`, `pop`, `remove` and `set` have their
fields in the range of `unsigned int` and are at least half full. -/
theorem built_half_full [Zero T] (b : box_t T) (h : Built false b) :
    Fits b ∧ b.capacity / 2 ≤ b.len := by
  induction h with
  | create hdr_ok b hc =>
    simp only [create_box] at hc
    split at hc
    · simp only [Prod.mk.injEq, Option.some.injEq, true_and] at hc
      subst hc
      exact ⟨by simp [Fits], by simp⟩
    · simp at hc
  | create_from hdr_ok data_ok v b hc =>
    simp only [create_box_from] at hc
    split at hc
    · split at hc
      · simp at hc
      · simp only [Prod.mk.injEq, Option.some.injEq, true_and] at hc
        subst hc
        exact ⟨by simp [Fits], by simp⟩
    · simp at hc
  | push env b v b' _ hp ih =>
    obtain ⟨hfit, hh⟩ := ih
    refine ⟨push_box_fits hp hfit, ?_⟩
    obtain ⟨tmp, rfl, hlt, hlt2, -⟩ := push_box_success hp hfit.2.2
    have hmod : (b.len + 1) % 2 ^ 32 = b.len + 1 := by omega
    simp only [hmod]
    have := new_capacity_le b.capacity
    split <;> omega
  | pop env b item b' item' _ hp ih =>
    obtain ⟨hfit, hh⟩ := ih
    rcases item with _ | old
    · simp [pop_box] at hp
    · refine ⟨pop_box_fits hp hfit, ?_⟩
      rcases pop_box_returned hp with ⟨-, hst, -⟩ | ⟨hz, _, -, hred, -⟩
      · simp at hst
      · obtain ⟨_, _, -, -, -, rfl, -, -⟩ := reduce_box_returned hred (by omega) hfit.1
        simp only
        split <;> omega
  | remove env b index b' _ hp ih =>
    obtain ⟨hfit, hh⟩ := ih
    refine ⟨remove_box_fits hp hfit, ?_⟩
    rcases remove_box_returned hp with ⟨-, hst, -⟩ | ⟨-, -, hst, -⟩ | ⟨hz, -, _, _, -, -, hred⟩
    · simp at hst
    · simp at hst
    · obtain ⟨_, _, -, -, -, rfl, -, -⟩ :=
        reduce_box_returned hred (by simp only; omega) hfit.1
      simp only
      split <;> omega
  | set b v index b' _ hp ih =>
    obtain ⟨hfit, hh⟩ := ih
    obtain ⟨buf, hd, -, rfl⟩ := set_box_success hp
    obtain ⟨h1, h2, h3⟩ := hfit
    rw [hd] at h3
    exact ⟨⟨h1, h2, by simpa using h3⟩, hh⟩
  | cat env d s d' s' hw _ _ _ _ => simp at hw
  | cat_self env d d' hw _ _ _ _ => simp at hw

/-- C20.  Bounded slack: for every box made by `create_box_T` or
`create_box_T_from` and then any finite sequence of `push`, `pop` and `remove`
calls that returned `SUCCESS` (`set` is allowed too, `cat` is not),
`⌊capacity / 2⌋ ≤ len` holds, and so `capacity ≤ 2 * len + 1`.  Every box on the
way is such a box, so the bound holds after every call. -/
theorem bounded_slack [Zero T] (b : box_t T) (h : Built false b) :
    b.capacity / 2 ≤ b.len ∧ b.capacity ≤ 2 * b.len + 1 := by
  have := (built_half_full b h).2
  exact ⟨this, by omega⟩

/-- Witness of C20: the box a new box becomes by `push(7)`. -/
theorem bounded_slack_witness :
    Built false ({ data := some [7], len := 1, capacity := 1 } : box_t Nat) ∧
    ({ data := some [7], len := 1, capacity := 1 } : box_t Nat).capacity / 2 ≤
      ({ data := some [7], len := 1, capacity := 1 } : box_t Nat).len ∧
    ({ data := some [7], len := 1, capacity := 1 } : box_t Nat).capacity ≤
      2 * ({ data := some [7], len := 1, capacity := 1 } : box_t Nat).len + 1 :=
  have h : Built false ({ data := some [7], len := 1, capacity := 1 } : box_t Nat) :=
    Built.push ⟨true, true, fun _ => 0⟩ ⟨none, 0, 1⟩ 7 _ (Built.create true _ rfl) rfl
  ⟨h, bounded_slack _ h⟩

end BoxLib
